import Mathlib

/-! ScratchDB: streaming query transcoding and HTTP ingestion

A shallow embedding of the request handlers of `ingest/ingest.go`, of the query
methods of `pkg/destinations` (Clickhouse, BigQuery, the DuckDB pipe) and of the
data sink of `pkg/datasink/memory/memory.go`, followed by theorems about them.

Conventions of the embedding
* a byte slice is a list of characters, one element per byte;
* a Go `error` value is a `GoError`; `nil` is `none`;
* an `io.Writer` is a state `W` together with its `Write` function, which may
  fail; the handlers receive it as a parameter, as the Go code receives an
  interface value;
* a `bufio.Reader` is the list of results its `ReadLine` calls are going to
  return; once the list is used up every further call reports `io.EOF`;
* the unbounded `for` loops take a fuel argument and return `none` when the
  fuel runs out before the loop has ended;
* functions of libraries and of files that are not among the sources at hand
  are parameters, gathered in structures such as `Libs`; `filepath.Join` and
  the accessors of `ajson` are written out.
-/

namespace ScratchDB

/-- A byte slice. -/
abbrev Bytes := List Char

/-- Go error values: the sentinel `io.EOF`, and every other error, told apart
by its message. -/
inductive GoError where
  | EOF : GoError
  | other (msg : String) : GoError
deriving DecidableEq, Repr

/-- The text of an error, `err.Error()`. -/
def GoError.Error : GoError → String
  | .EOF => "EOF"
  | .other msg => msg

/-- One result of `bufio.Reader.ReadLine`: `(line, isPrefix, err)`. -/
structure ReadResult where
  line : Bytes
  isPrefix : Bool
  err : Option GoError
deriving DecidableEq, Repr

/-- A line reader: the results still to come. -/
abbrev LineReader := List ReadResult

/-- The method `reader.ReadLine()`: hands out the next result, or `io.EOF` with
no line when nothing is left. -/
def ReadLine : LineReader → ReadResult × LineReader
  | [] => (⟨[], false, some GoError.EOF⟩, [])
  | r :: rest => (r, rest)

/-- An `io.Writer`: its `Write` method on a writer state `W`. The count of
bytes written that Go returns as well is left out, no caller reads it. -/
abbrev WriteFn (W : Type) := W → Bytes → W × Option GoError

/-- The writer `bytes.Buffer`: keeps every byte, never fails. -/
def bufferWrite : WriteFn Bytes :=
  fun buf p => (buf ++ p, none)

/-- The writer of a client that has gone away: keeps nothing, every `Write`
fails. -/
def brokenWrite : WriteFn Bytes :=
  fun buf _ => (buf, some (GoError.other "write: broken pipe"))

/-- The `for` loop of `ClickhouseServer.QueryJSON` (query.go lines 31-53).
`cur` is `(line, isPrefix, err)`. The result is the writer state and `none`
when the loop is left by `break`, `some e` when it is left by `return err`. -/
def transcodeLoop {W : Type} (write : WriteFn W) :
    Nat → ReadResult → LineReader → W → Option (W × Option GoError)
  | 0, _, _, _ => none
  | fuel + 1, cur, reader, w =>
    -- If we're at the end of our input, break
    if cur.err = some GoError.EOF then some (w, none)
    else match cur.err with
      | some e => some (w, some e)
      | none =>
        -- Output the data
        let w1 := (write w cur.line).1
        -- Check to see whether we are at the last row by looking for EOF
        let (next, reader1) := ReadLine reader
        -- If the next row is not an EOF, then output a comma
        let w2 := if !cur.isPrefix && next.err != some GoError.EOF
                  then (write w1 [',']).1 else w1
        transcodeLoop write fuel next reader1 w2

/-- The receiver of `QueryJSON`. `httpQuery` and `util.TrimQuery` are defined
in files that are not among the sources at hand and are taken as parameters;
a successful `httpQuery` is represented by the line reader over its body. -/
structure ClickhouseServer where
  TrimQuery : String → String
  httpQuery : String → Except GoError LineReader

/-- The method `ClickhouseServer.QueryJSON(query, writer)` of query.go. Returns
the writer state and the returned error. -/
def ClickhouseServer.QueryJSON {W : Type} (s : ClickhouseServer) (fuel : Nat)
    (query : String) (write : WriteFn W) (w : W) : Option (W × Option GoError) :=
  let sanitized := s.TrimQuery query
  let sql := "SELECT * FROM (" ++ sanitized ++ ") FORMAT " ++ "JSONEachRow"
  match s.httpQuery sql with
  | .error err => some (w, some err)
  | .ok resp =>
    let w0 := (write w ['[']).1
    let (first, reader) := ReadLine resp
    match transcodeLoop write fuel first reader w0 with
    | none => none
    | some (w1, some err) => some (w1, some err)
    | some (w1, none) =>
      let w2 := (write w1 [']']).1
      some (w2, none)

/-! ## The ingestion server of `ingest/ingest.go` -/

/-- The JSON document tree of the library `ajson`. An object holds its children
as they are after the parser has resolved repeated keys. -/
inductive Node where
  | null : Node
  | numeric (src : String) : Node
  | string (value : String) : Node
  | bool (value : Bool) : Node
  | array (elems : List Node) : Node
  | object (children : List (String × Node)) : Node

/-- The constants `ajson.Null`, `ajson.Numeric`, ... -/
inductive NodeType where
  | Null | Numeric | String | Bool | Array | Object
deriving DecidableEq, Repr

/-- The method `(*ajson.Node).Type()`. -/
def Node.Type : Node → NodeType
  | .null => NodeType.Null
  | .numeric _ => NodeType.Numeric
  | .string _ => NodeType.String
  | .bool _ => NodeType.Bool
  | .array _ => NodeType.Array
  | .object _ => NodeType.Object

/-- The method `(*ajson.Node).GetKey(key)`: the child of an object under `key`;
`(nil, err)` when the node is no object or has no such key. -/
def Node.GetKey (n : Node) (key : String) : Option Node × Option GoError :=
  match n with
  | .object children =>
    match children.lookup key with
    | some value => (some value, none)
    | none => (none, some (GoError.other ("wrong key: " ++ key)))
  | _ => (none, some (GoError.other "wrong type"))

/-- The method `(*ajson.Node).GetString()` on a possibly nil pointer: the value of
a string node; `("", err)` for nil and for every other type. -/
def Node.GetString : Option Node → String × Option GoError
  | some (.string value) => (value, none)
  | _ => ("", some (GoError.other "wrong type"))

/-- The method `(*ajson.Node).GetArray()`. -/
def Node.GetArray : Node → Except GoError (List Node)
  | .array elems => .ok elems
  | _ => .error (GoError.other "wrong type")

/-- The method `(*ajson.Node).JSONPath(path)` for the two paths the handler
passes: `$` selects the node itself, `$.data` the child `data` of an object
(nothing when there is none). -/
def Node.JSONPath (root : Node) (path : String) : Except GoError (List Node) :=
  if path = "$" then .ok [root]
  else if path = "$.data" then
    match root with
    | .object children =>
      match children.lookup "data" with
      | some value => .ok [value]
      | none => .ok []
    | _ => .ok []
  else .error (GoError.other "unsupported path")

/-- The request side of `fiber.Ctx`. -/
structure Ctx where
  method : String
  headers : List (String × String)
  queries : List (String × String)
  body : Bytes

/-- The call `c.Method()`. -/
def Ctx.Method (c : Ctx) : String := c.method

/-- The call `c.Get(key)`: the request header, `""` when absent. -/
def Ctx.Get (c : Ctx) (key : String) : String :=
  (c.headers.lookup key).getD ""

/-- The call `c.Query(key, defaultValue)`: the query parameter, the default when
it is absent or empty; a call without a default passes `""`. -/
def Ctx.Query (c : Ctx) (key : String) (defaultValue : String) : String :=
  let v := (c.queries.lookup key).getD ""
  if v = "" then defaultValue else v

/-- The call `c.Body()`. -/
def Ctx.Body (c : Ctx) : Bytes := c.body

/-- The struct `ch.ClickhouseCred`, the fields that `query` reads. -/
structure ClickhouseCred where
  Protocol : String
  Host : String
  HTTPPort : String
  Username : String
  Password : String

/-- An `*http.Response`: the status code and the body, both as the bytes
`io.ReadAll` returns and as a line reader. -/
structure HttpResponse where
  StatusCode : Nat
  readAll : Bytes
  lines : LineReader

/-- The struct `config.Config`, the fields that the handlers read: the map
`Users` from API key to database and, of the section `Ingest`, `DataDir`,
`HealthCheckPath` and the signed integer `FreeSpaceRequiredBytes`. -/
structure Config where
  Users : List (String × String)
  DataDir : String
  HealthCheckPath : String
  FreeSpaceRequiredBytes : Int

/-- What the handlers call outside `ingest.go`: library functions and the
`FileWriter` of this package, whose file is not among the sources at hand.
`W` is the state of a `FileWriter`. -/
structure Libs (W : Type) where
  /-- The function `json.Valid`. -/
  jsonValid : Bytes → Bool
  /-- The function `ajson.Unmarshal`. -/
  Unmarshal : Bytes → Except GoError Node
  /-- The method `(*ajson.Node).String()`. -/
  nodeString : Node → String
  /-- The call `flatten.FlattenString(s, "", flatten.UnderscoreStyle)`. -/
  FlattenString : String → Except GoError String
  /-- The call `FlattenJSON(s, nil, false)`. -/
  FlattenJSON : String → Except GoError (List String)
  /-- The function `filepath.Join`. -/
  Join : List String → String
  /-- The constructor `NewFileWriter(dir, config, uploadDir, tags)`. -/
  NewFileWriter : String → Config → String → List (String × String) → W
  /-- The method `(*FileWriter).Write(data)`. -/
  Write : W → String → W × Option GoError
  /-- The call `c.BodyParser(&payload)`: the field `query` of the payload. -/
  BodyParser : Ctx → Except GoError String
  /-- The calls `http.NewRequest` and `client.Do` on the url, the three
  Clickhouse headers and the request body. -/
  httpPost : String → String → String → String → String → Except GoError HttpResponse
  /-- The markdown parser and HTML renderer of the html branch. -/
  renderMarkdown : Bytes → Bytes

/-- The struct `FileIngest`; `writers` is the map from directory to writer. -/
structure FileIngest (W : Type) where
  Config : Config
  clickhouse : String → Except GoError ClickhouseCred
  writers : List (String × W)

/-- How a handler run ends. -/
inductive Outcome where
  /-- The handler returned `nil`: status 200 with the body written so far. -/
  | nil : Outcome
  /-- The handler returned a `*fiber.Error` with this code and message. -/
  | fiberError (code : Nat) (message : String) : Outcome
  /-- The handler returned another error value. -/
  | error (err : GoError) : Outcome
  /-- A runtime panic. -/
  | panic (message : String) : Outcome
  /-- The call `log.Fatal` ended the process. -/
  | fatal : Outcome
deriving DecidableEq, Repr

/-- The function `fiber.NewError(code)` without a message takes the standard
text of the status code; `fiber.ErrBadRequest` is `NewError(400)`. -/
def statusMessage (code : Nat) : String :=
  if code = 400 then "Bad Request"
  else if code = 401 then "Unauthorized"
  else if code = 502 then "Bad Gateway"
  else "Error"

/-- The method `FileIngest.getField` (ingest.go lines 70-97). -/
def FileIngest.getField {W : Type} (L : Libs W) (_i : FileIngest W)
    (header query body : String) (c : Ctx) : String × String :=
  -- First try to get value from header
  let rc := c.Get header
  let location := "header"
  -- Then try to get if from query param
  let (rc, location) := if rc = "" then (c.Query query "", "query") else (rc, location)
  -- Then try to get it from JSON body
  if body ≠ "" ∧ rc = "" then
    match L.Unmarshal c.Body with
    | .error _ => ("", "")
    | .ok root =>
      let bodyKey := (root.GetKey body).1
      let rc := (Node.GetString bodyKey).1
      if rc = "" then ("", "") else (rc, "body")
  else
    if rc = "" then ("", "") else (rc, location)

/-- The assignment `m[k] = v` on a Go map, and the state of the value behind a
pointer stored under `k`. -/
def mapSet {W : Type} : List (String × W) → String → W → List (String × W)
  | [], k, v => [(k, v)]
  | (k1, v1) :: rest, k, v =>
    if k1 = k then (k, v) :: rest else (k1, v1) :: mapSet rest k v

/-- The loop `for _, flat := range flats` of `InsertData` (lines 171-177 and
198-204): every row is passed to `writer.Write`, a failure is only logged. -/
def writeFlats {W : Type} (L : Libs W) : List String → W → W
  | [], writer => writer
  | flat :: rest, writer => writeFlats L rest (L.Write writer flat).1

/-- The loop `for _, o := range objects` of `InsertData` (lines 163-189). The
result is the writer state, the rows passed to `writer.Write` so far, and the
error the loop returned with, if any. -/
def insertObjects {W : Type} (L : Libs W) (flattenAlgorithm : String) :
    List Node → W → List String → W × List String × Option GoError
  | [], writer, written => (writer, written, none)
  | o :: rest, writer, written =>
    if flattenAlgorithm = "explode" then
      match L.FlattenJSON (L.nodeString o) with
      | .error err => (writer, written, some err)
      | .ok flats =>
        insertObjects L flattenAlgorithm rest (writeFlats L flats writer) (written ++ flats)
    else
      match L.FlattenString (L.nodeString o) with
      | .error err => (writer, written, some err)
      | .ok flat =>
        -- a failed Write is logged and the loop goes on
        insertObjects L flattenAlgorithm rest (L.Write writer flat).1 (written ++ [flat])

/-- What a run of `InsertData` leaves: the server state, the rows passed to
`writer.Write` in order, the response body and the way the handler ended. -/
structure InsertResult (W : Type) where
  ingest : FileIngest W
  written : List String
  body : Bytes
  outcome : Outcome

/-- The method `FileIngest.InsertData` (ingest.go lines 101-220). The logging
under the query parameter `debug` has no effect on the result and is left out. -/
def FileIngest.InsertData {W : Type} (L : Libs W) (i : FileIngest W) (c : Ctx) :
    InsertResult W :=
  let api_key := (i.getField L "X-API-KEY" "api_key" "api_key" c).1
  match i.Config.Users.lookup api_key with
  | none => ⟨i, [], [], Outcome.fiberError 401 (statusMessage 401)⟩
  | some _ =>
  let input := c.Body
  -- Ensure JSON is valid
  if !L.jsonValid input then ⟨i, [], [], Outcome.fiberError 400 (statusMessage 400)⟩
  else
  let (table_name, table_location) := i.getField L "X-SCRATCHDB-TABLE" "table" "table" c
  if table_name = "" then
    ⟨i, [], [], Outcome.fiberError 400 "You must specify a table name"⟩
  else
  let flattenAlgorithm := (i.getField L "X-SCRATCHDB-FLATTEN" "flatten" "flatten" c).1
  let data_path := if table_location = "body" then "$.data" else "$"
  match L.Unmarshal input with
  | .error err => ⟨i, [], [], Outcome.fiberError 400 err.Error⟩
  | .ok root =>
  match root.JSONPath data_path with
  | .error err => ⟨i, [], [], Outcome.error err⟩
  | .ok x =>
  let dir := L.Join [i.Config.DataDir, api_key, table_name]
  let (writer, writers) :=
    match i.writers.lookup dir with
    | some writer => (writer, i.writers)
    | none =>
      let writer := L.NewFileWriter dir i.Config (L.Join ["data", api_key, table_name])
        [("api_key", api_key), ("table_name", table_name)]
      (writer, mapSet i.writers dir writer)
  match x with
  | [] => ⟨{ i with writers := writers }, [], [],
      Outcome.panic "index out of range [0] with length 0"⟩
  | x0 :: _ =>
    if x0.Type = NodeType.Array then
      match x0.GetArray with
      | .error err => ⟨{ i with writers := writers }, [], [], Outcome.error err⟩
      | .ok objects =>
        match insertObjects L flattenAlgorithm objects writer [] with
        | (writer1, written, some err) =>
          ⟨{ i with writers := mapSet writers dir writer1 }, written, [], Outcome.error err⟩
        | (writer1, written, none) =>
          ⟨{ i with writers := mapSet writers dir writer1 }, written, "ok".toList, Outcome.nil⟩
    else if x0.Type = NodeType.Object then
      if flattenAlgorithm = "explode" then
        match L.FlattenJSON (L.nodeString x0) with
        | .error err => ⟨{ i with writers := writers }, [], [], Outcome.error err⟩
        | .ok flats =>
          ⟨{ i with writers := mapSet writers dir (writeFlats L flats writer) }, flats,
            "ok".toList, Outcome.nil⟩
      else
        match L.FlattenString (L.nodeString x0) with
        | .error err => ⟨{ i with writers := writers }, [], [], Outcome.error err⟩
        | .ok flat =>
          match L.Write writer flat with
          | (writer1, some err) =>
            ⟨{ i with writers := mapSet writers dir writer1 }, [flat], [],
              Outcome.fiberError 400 err.Error⟩
          | (writer1, none) =>
            ⟨{ i with writers := mapSet writers dir writer1 }, [flat], "ok".toList,
              Outcome.nil⟩
    else
      ⟨{ i with writers := writers }, [], "ok".toList, Outcome.nil⟩

/-- The method `FileIngest.query` (ingest.go lines 222-266): `none` when
`FetchCredential` fails and `log.Fatal` ends the process. -/
def FileIngest.query {W : Type} (L : Libs W) (i : FileIngest W)
    (database query format : String) : Option (Except GoError HttpResponse) :=
  let ch_format :=
    if format = "html" then "Markdown"
    else if format = "json" then "JSONEachRow"
    else "JSONEachRow"
  let sql := "SELECT * FROM (" ++ query ++ ") FORMAT " ++ ch_format
  let serverKey := "default"
  match i.clickhouse serverKey with
  | .error _ => none
  | .ok serverCred =>
    let url := serverCred.Protocol ++ "://" ++ serverCred.Host ++ ":" ++ serverCred.HTTPPort
    some (L.httpPost url serverCred.Username serverCred.Password database sql)

/-- The calls `c.Write` and `c.WriteString`: append to the response body. -/
def ctxWrite : WriteFn Bytes :=
  fun body p => (body ++ p, none)

/-- The `for` loop of `FileIngest.Query` (ingest.go lines 338-360); `body` is
the response body of `c`. -/
def queryLoop : Nat → ReadResult → LineReader → Bytes → Option (Bytes × Option GoError)
  | 0, _, _, _ => none
  | fuel + 1, cur, reader, body =>
    -- If we're at the end of our input, break
    if cur.err = some GoError.EOF then some (body, none)
    else match cur.err with
      | some e => some (body, some e)
      | none =>
        -- Output the data
        let body1 := (ctxWrite body cur.line).1
        -- Check to see whether we are at the last row by looking for EOF
        let (next, reader1) := ReadLine reader
        -- If the next row is not an EOF, then output a comma
        let body2 := if !cur.isPrefix && next.err != some GoError.EOF
                     then (ctxWrite body1 [',']).1 else body1
        queryLoop fuel next reader1 body2

/-- The style block the html branch writes before the rendered table. -/
def htmlStyle : String :=
  "\n\t\t<style>\n\t\ttable, tr, td, th \x7bborder: 1px solid; border-collapse:collapse\x7d\n\t\ttd,th\x7bpadding:3px;\x7d\n\t\t</style>\n\t\t"

/-- What a run of `Query` leaves: the content type set on the response, the
response body written, and the way the handler ended. -/
structure QueryResult where
  contentType : String
  body : Bytes
  outcome : Outcome
deriving DecidableEq, Repr

/-- The method `FileIngest.Query` (ingest.go lines 268-364). The result is
`none` when the fuel of the transcoding loop runs out. -/
def FileIngest.Query {W : Type} (L : Libs W) (i : FileIngest W) (fuel : Nat) (c : Ctx) :
    Option QueryResult :=
  let query := c.Query "q" ""
  let parsed : Except GoError String :=
    if c.Method = "POST" then
      match L.BodyParser c with
      | .error err => .error err
      | .ok payloadQuery => .ok payloadQuery
    else .ok query
  match parsed with
  | .error err => some ⟨"", [], Outcome.error err⟩
  | .ok query =>
  let format := c.Query "format" "json"
  let api_key := (i.getField L "X-API-KEY" "api_key" "" c).1
  match i.Config.Users.lookup api_key with
  | none => some ⟨"", [], Outcome.fiberError 401 (statusMessage 401)⟩
  | some user =>
  match i.query L user query format with
  | none => some ⟨"", [], Outcome.fatal⟩
  | some (.error err) => some ⟨"", [], Outcome.fiberError 400 err.Error⟩
  | some (.ok resp) =>
  if resp.StatusCode ≠ 200 then
    some ⟨"", [], Outcome.fiberError 400 (String.mk resp.readAll)⟩
  else if format = "html" then
    let md := resp.readAll
    let html := L.renderMarkdown md
    some ⟨"text/html", (ctxWrite (ctxWrite [] htmlStyle.toList).1 html).1, Outcome.nil⟩
  else
    let body0 := (ctxWrite [] ['[']).1
    let (first, reader) := ReadLine resp.lines
    match queryLoop fuel first reader body0 with
    | none => none
    | some (body1, some err) => some ⟨"application/json", body1, Outcome.error err⟩
    | some (body1, none) =>
      some ⟨"application/json", (ctxWrite body1 [']']).1, Outcome.nil⟩

/-! ## The function `filepath.Join` of the Go library, on Unix -/

/-- The elements of a path, the texts between its separators. -/
def splitSlash : List Char → List (List Char)
  | [] => [[]]
  | c :: cs =>
    if c = '/' then [] :: splitSlash cs
    else match splitSlash cs with
      | [] => [[c]]
      | seg :: segs => (c :: seg) :: segs

/-- One element in the loop of `filepath.Clean`; `stack` holds the elements
kept so far, the last one first. An empty element and `.` are dropped, `..`
removes the element before it when there is one to remove, is kept in front of
a relative path and dropped at the root, every other element is kept. -/
def cleanStep (rooted : Bool) (stack : List (List Char)) (seg : List Char) :
    List (List Char) :=
  if seg = [] ∨ seg = ['.'] then stack
  else if seg = ['.', '.'] then
    match stack with
    | [] => if rooted then [] else [seg]
    | top :: below => if top = ['.', '.'] then seg :: stack else below
  else seg :: stack

/-- The function `filepath.Clean`: the shortest path naming the same file by
purely lexical processing. -/
def filepath.Clean (path : List Char) : List Char :=
  if path = [] then ['.']
  else
    let rooted : Bool := path.head? = some '/'
    let stack := (splitSlash path).foldl (cleanStep rooted) []
    let body := List.intercalate ['/'] stack.reverse
    if rooted then '/' :: body
    else if body = [] then ['.'] else body

/-- The function `filepath.Join`: the elements from the first non-empty one on
are joined with separators and the result is cleaned; no such element gives the
empty string. -/
def filepath.Join : List String → String
  | [] => ""
  | e :: rest =>
    if e = "" then filepath.Join rest
    else String.mk (filepath.Clean (List.intercalate ['/'] ((e :: rest).map String.toList)))

/-! ## The data sink of `pkg/datasink/memory/memory.go` -/

/-- The type `models.MessageType`. -/
abbrev MessageType := String

/-- The constant `models.InsertData`. -/
def models.InsertData : MessageType := "INSERT_DATA"

/-- The constant `models.CopyData`. -/
def models.CopyData : MessageType := "COPY_DATA"

/-- The struct `queue_models.FileUploadMessage`, the fields that `WriteData`
sets; its declaration is in a file that is not among the sources at hand. -/
structure FileUploadMessage where
  DatabaseID : Int
  Table : String
  Key : String
deriving DecidableEq, Repr

/-- One call of `WriteData` on the storage services. -/
inductive StorageCall where
  | upload (key : String) (data : Bytes) : StorageCall
  | enqueue (messageType : MessageType) (message : FileUploadMessage) : StorageCall
deriving DecidableEq, Repr

/-- The struct `DataSink`: the storage services and the snowflake node, by
the three methods `WriteData` calls. `S` is the state of the storage services,
`G` the state of the id generator. -/
structure DataSink (S G : Type) where
  /-- The method `m.storage.BlobStore.Upload(key, reader)`. -/
  Upload : S → String → Bytes → S × Option GoError
  /-- The method `m.storage.Database.Enqueue(messageType, message)`; the id it
  returns as well is dropped by the caller. -/
  Enqueue : S → MessageType → FileUploadMessage → S × Option GoError
  /-- The call `m.snow.Generate()` followed by `Int64()`. -/
  Generate : G → Int × G

/-- What a run of `WriteData` leaves: the states of the storage services and of
the id generator, the calls made on the storage services in order, and the
error returned. -/
structure WriteDataResult (S G : Type) where
  storage : S
  snow : G
  calls : List StorageCall
  err : Option GoError

/-- The method `DataSink.WriteData` (memory.go lines 24-47). The verb `%d`
prints a signed decimal number, `%s` the text as it is. -/
def DataSink.WriteData {S G : Type} (m : DataSink S G) (storage : S) (snow : G)
    (databaseID : Int) (table : String) (data : Bytes) : WriteDataResult S G :=
  let (fileId, snow1) := m.Generate snow
  let key := toString databaseID ++ "/" ++ table ++ "/" ++ toString fileId ++ ".ndjson"
  let reader := data
  match m.Upload storage key reader with
  | (storage1, some uploadErr) => ⟨storage1, snow1, [StorageCall.upload key data], some uploadErr⟩
  | (storage1, none) =>
    let uploadMessage : FileUploadMessage :=
      { DatabaseID := databaseID, Table := table, Key := key }
    match m.Enqueue storage1 models.InsertData uploadMessage with
    | (storage2, some err) =>
      ⟨storage2, snow1,
        [StorageCall.upload key data, StorageCall.enqueue models.InsertData uploadMessage],
        some err⟩
    | (storage2, none) =>
      ⟨storage2, snow1,
        [StorageCall.upload key data, StorageCall.enqueue models.InsertData uploadMessage],
        none⟩

/-! ## The health check of `ingest/ingest.go` -/

/-- What `os.Stat` reports for a path, as far as the handler looks at it. -/
inductive StatResult where
  /-- The error is `nil`: the file is there. -/
  | found : StatResult
  /-- An error for which `os.IsNotExist` holds. -/
  | notExist : StatResult
  /-- Any other error, such as a directory on the way that may not be read. -/
  | failed (err : GoError) : StatResult
deriving DecidableEq, Repr

/-- The function `os.IsNotExist` on the error of `os.Stat`. -/
def IsNotExist : StatResult → Bool
  | .notExist => true
  | _ => false

/-- The volume the server runs on: `os.Stat` and `util.FreeDiskSpace`, the
latter from a file that is not among the sources at hand; it returns a
`uint64`. -/
structure Disk where
  Stat : String → StatResult
  FreeDiskSpace : String → Nat

/-- The conversion `uint64(x)` of a signed 64-bit integer. -/
def uint64 (x : Int) : Nat := (x % 2 ^ 64).toNat

/-- The method `FileIngest.HealthCheck` (ingest.go lines 53-68): the response
body and the way the handler ended. -/
def FileIngest.HealthCheck {W : Type} (d : Disk) (i : FileIngest W) : Bytes × Outcome :=
  -- Check if server has been manually marked as unhealthy
  let err := d.Stat i.Config.HealthCheckPath
  if !IsNotExist err then ([], Outcome.fiberError 502 (statusMessage 502))
  else
    -- Ensure we haven't filled up disk
    let currentFreeSpace := d.FreeDiskSpace i.Config.DataDir
    if currentFreeSpace ≤ uint64 i.Config.FreeSpaceRequiredBytes then
      ([], Outcome.fiberError 502 (statusMessage 502))
    else ("ok".toList, Outcome.nil)

/-! ## The BigQuery connection of `pkg/destinations/bq/bigquery.go` -/

/-- A BigQuery job: what `job.Read` with the iterator over its rows and
`job.Status` give. -/
structure BigQueryJob where
  rows : Except GoError (List (List String))
  status : Except GoError Unit

/-- The BigQuery client library: `bigquery.NewClient` on the credentials and
`Query(sql).Run`. -/
structure BigQueryLib where
  NewClient : String → Except GoError Unit
  Run : String → Except GoError BigQueryJob

/-- The struct `BigQueryConnection`. -/
structure BigQueryConnection where
  JSONCredentials : String

/-- The loop `for { err = iterator.Next(&values) ... }` (lines 42-49): every row
is logged, the loop ends with the error that ends the rows. -/
def drainRows : List (List String) → Unit
  | [] => ()
  | _ :: rest => drainRows rest

/-- The method `BigQueryConnection.QueryJSON` (bigquery.go lines 17-69). Every
error is logged and then ignored, so the use of the `nil` result of a failed
call panics. The result is the writer state and the way the method ended. -/
def BigQueryConnection.QueryJSON {W : Type} (lib : BigQueryLib) (s : BigQueryConnection)
    (_query : String) (_write : WriteFn W) (w : W) : W × Outcome :=
  match lib.NewClient s.JSONCredentials with
  | .error _ => (w, Outcome.panic "invalid memory address or nil pointer dereference")
  | .ok _ =>
    match lib.Run "SELECT * FROM \x60bigquery-public-data.faa.us_airports\x60 LIMIT 500" with
    | .error _ => (w, Outcome.panic "invalid memory address or nil pointer dereference")
    | .ok job =>
      match job.rows with
      | .error _ => (w, Outcome.panic "invalid memory address or nil pointer dereference")
      | .ok rows =>
        let _ := drainRows rows
        match job.status with
        | .error _ => (w, Outcome.panic "invalid memory address or nil pointer dereference")
        | .ok _ => (w, Outcome.nil)

/-! ## The pipe of `pkg/destinations/duckdb/query.go` -/

/-- The file system: the paths that exist. -/
abbrev FileSystem := List String

/-- The path `p` lies below the directory `dir`. -/
def below (dir p : String) : Bool :=
  (dir.toList ++ ['/']).isPrefixOf p.toList

/-- The function `os.Remove` when it succeeds: the path is gone. -/
def Remove (path : String) (fs : FileSystem) : FileSystem :=
  fs.filter (fun p => p ≠ path)

/-- The function `os.RemoveAll` when it succeeds: the path and everything below
it are gone. -/
def RemoveAll (path : String) (fs : FileSystem) : FileSystem :=
  fs.filter (fun p => p ≠ path ∧ ¬ below path p)

/-- What is outside the sequential code of `QueryJSONPipe` in one execution:
the results of `os.MkdirTemp` and `syscall.Mkfifo`, what the two goroutines and
the database did to the file system while the function waited, and the first
value received from the channel `done`. -/
structure PipeRun where
  mkdirTemp : Except GoError String
  mkfifo : Option GoError
  during : FileSystem → FileSystem
  signal : Option GoError

/-- The method `DuckDBServer.QueryJSONPipe` (query.go lines 12-75) in an
execution in which a value arrives on `done`: the file system at the return and
the error returned. The deferred calls run at every return after their
registration, the last registered first. -/
def DuckDBServer.QueryJSONPipe (run : PipeRun) (fs : FileSystem) :
    FileSystem × Option GoError :=
  match run.mkdirTemp with
  | .error err => (fs, some err)
  | .ok dir =>
    let fs1 := dir :: fs
    -- defer os.RemoveAll(dir)
    let fifoPath := filepath.Join [dir, "p.pipe"]
    match run.mkfifo with
    | some err => (RemoveAll dir fs1, some err)
    | none =>
      let fs2 := fifoPath :: fs1
      -- defer os.Remove(fifoPath)
      let fs3 := run.during fs2
      -- Who sends us the first completion? The DB executing or the copy?
      match run.signal with
      | some err => (RemoveAll dir (Remove fifoPath fs3), some err)
      | none => (RemoveAll dir (Remove fifoPath fs3), none)

/-! ## Vocabulary of the statements and example values -/

/-- A read result carrying one whole line. -/
def completeLine (l : Bytes) : ReadResult := ⟨l, false, none⟩

/-- The statement `sql := ...` of `ClickhouseServer.QueryJSON`. -/
def ClickhouseServer.sql (s : ClickhouseServer) (query : String) : String :=
  "SELECT * FROM (" ++ s.TrimQuery query ++ ") FORMAT " ++ "JSONEachRow"

/-- What the transcoder loop writes for the non-failing results `rs` when the
read after them fails with an error other than `io.EOF`: every fragment, and a
comma after each fragment that ends a line. -/
def abortedBody (rs : List ReadResult) : Bytes :=
  (rs.map (fun r => if r.isPrefix then r.line else r.line ++ [','])).flatten

/-- A Clickhouse server whose HTTP answer is read as the results `rs`; the
query is passed on as it is. -/
def exServer (rs : LineReader) : ClickhouseServer :=
  { TrimQuery := fun q => q, httpQuery := fun _ => .ok rs }

/-- A read that fails with a connection reset. -/
def exReset : ReadResult := ⟨[], false, some (GoError.other "connection reset by peer")⟩

/-- The body `{"a":1}`. -/
def exObjectBody : Bytes := "\x7b\"a\":1\x7d".toList

/-- The body `[{"a":1},{"b":2}]`. -/
def exArrayBody : Bytes := "[\x7b\"a\":1\x7d,\x7b\"b\":2\x7d]".toList

/-- The body `5`. -/
def exNumberBody : Bytes := "5".toList

/-- The body `{"api_key":"k","query":"select 1"}`. -/
def exKeyBody : Bytes := "\x7b\"api_key\":\"k\",\"query\":\"select 1\"\x7d".toList

/-- The body `[{"a":1},5]`. -/
def exMixedBody : Bytes := "[\x7b\"a\":1\x7d,5]".toList

/-- The body `{"table":"t"}`. -/
def exTableBody : Bytes := "\x7b\"table\":\"t\"\x7d".toList

/-- The document tree of each example body; every other body is taken to be
no JSON. -/
def exUnmarshal (b : Bytes) : Except GoError Node :=
  if b = exObjectBody then .ok (.object [("a", .numeric "1")])
  else if b = exArrayBody then
    .ok (.array [.object [("a", .numeric "1")], .object [("b", .numeric "2")]])
  else if b = exMixedBody then .ok (.array [.object [("a", .numeric "1")], .numeric "5"])
  else if b = exNumberBody then .ok (.numeric "5")
  else if b = exKeyBody then
    .ok (.object [("api_key", .string "k"), ("query", .string "select 1")])
  else if b = exTableBody then .ok (.object [("table", .string "t")])
  else .error (GoError.other "wrong symbol")

/-- The JSON text of the nodes of the example bodies. -/
def exNodeString : Node → String
  | .numeric src => src
  | .object [(k, .numeric src)] => "\x7b\"" ++ k ++ "\":" ++ src ++ "\x7d"
  | _ => "null"

/-- Flattening of a text that starts an object, for objects that are flat
already: the object itself. Any other text is no JSON object. -/
def exFlattenString (text : String) : Except GoError String :=
  if text.toList.head? = some '\x7b' then .ok text
  else .error (GoError.other "Not a valid input: should be a valid JSON")

/-- The answer of the Clickhouse HTTP interface in the examples: status 200 and
the two rows `{"a":1}` and `{"b":2}`. -/
def exResponse : HttpResponse :=
  { StatusCode := 200
    readAll := "\x7b\"a\":1\x7d\n\x7b\"b\":2\x7d\n".toList
    lines := [completeLine exObjectBody, completeLine "\x7b\"b\":2\x7d".toList] }

/-- Example libraries over a `FileWriter` that is the list of the rows it
holds; `Write` appends a row and succeeds. -/
def exLibs : Libs (List String) :=
  { jsonValid := fun b => (exUnmarshal b).toBool
    Unmarshal := exUnmarshal
    nodeString := exNodeString
    FlattenString := exFlattenString
    FlattenJSON := fun text => (exFlattenString text).map (fun flat => [flat])
    Join := filepath.Join
    NewFileWriter := fun _ _ _ _ => []
    Write := fun rows row => (rows ++ [row], none)
    BodyParser := fun c =>
      if c.Get "Content-Type" = "application/json" ∧ c.body = exKeyBody then .ok "select 1"
      else .error (GoError.other "Unprocessable Entity")
    httpPost := fun _ _ _ _ _ => .ok exResponse
    renderMarkdown := fun md => md }

/-- The example libraries on a volume that is out of space: every `Write` of
the `FileWriter` fails and keeps nothing. -/
def fullDiskLibs : Libs (List String) :=
  { exLibs with
    Write := fun rows _ => (rows, some (GoError.other "insufficient disk space")) }

/-- A server with the single user `k`, owner of the database `db`, and no
writer yet. -/
def exIngest : FileIngest (List String) :=
  { Config :=
      { Users := [("k", "db")], DataDir := "data", HealthCheckPath := "unhealthy",
        FreeSpaceRequiredBytes := 100 }
    clickhouse := fun _ => .ok ⟨"http", "localhost", "8123", "default", ""⟩
    writers := [] }

/-- The request `POST /query` with a JSON body that names the user `k` and the
SQL text; it has no `X-API-KEY` header and no query parameter. -/
def exQuery : Ctx :=
  ⟨"POST", [("Content-Type", "application/json")], [], exKeyBody⟩

/-- The request `POST /data?table=t` of the user `k` with the given body. -/
def exInsert (body : Bytes) : Ctx :=
  ⟨"POST", [("X-API-KEY", "k")], [("table", "t")], body⟩

/-- One line of the answer as `ReadLine` delivers it when it is longer than the
buffer: the fragments `heads`, each returned with `isPrefix = true`, and then
the fragment `final` with `isPrefix = false`. -/
structure Fragments where
  heads : List Bytes
  final : Bytes

/-- The read results of one line delivered in fragments. -/
def Fragments.results (l : Fragments) : List ReadResult :=
  l.heads.map (fun f => ⟨f, true, none⟩) ++ [⟨l.final, false, none⟩]

/-- The line put together again from its fragments. -/
def Fragments.line (l : Fragments) : Bytes :=
  l.heads.flatten ++ l.final

/-- What the transcoder loop writes for the non-failing results `rs` when the
read after them reports `io.EOF`: every fragment, and a comma after each
fragment that ends a line and is not the last result. -/
def eofBody : List ReadResult → Bytes
  | [] => []
  | [r] => r.line
  | r :: r1 :: rs => r.line ++ (if r.isPrefix then [] else [',']) ++ eofBody (r1 :: rs)

/-- The flattening `InsertData` applies to one object under the flatten
parameter `alg`: `FlattenJSON` in explode mode, else `FlattenString`, which
gives one row. -/
def flattenRows {W : Type} (L : Libs W) (alg : String) (o : Node) :
    Except GoError (List String) :=
  if alg = "explode" then L.FlattenJSON (L.nodeString o)
  else match L.FlattenString (L.nodeString o) with
    | .error err => .error err
    | .ok flat => .ok [flat]

/-- The rows of an object that flattens, no row for one that does not. -/
def rowsOf {W : Type} (L : Libs W) (alg : String) (o : Node) : List String :=
  match flattenRows L alg o with
  | .ok rows => rows
  | .error _ => []

/-- The request `POST /data` of the user `k` whose body `{"table":"t"}` names
the table and has no field `data`. -/
def exNoData : Ctx :=
  ⟨"POST", [("X-API-KEY", "k")], [], exTableBody⟩

/-- A text that is one plain path element: not empty, without a separator,
and neither `.` nor `..`. -/
def plainElement (s : String) : Prop :=
  s.toList ≠ [] ∧ '/' ∉ s.toList ∧ s.toList ≠ ['.'] ∧ s.toList ≠ ['.', '.']

instance (s : String) : Decidable (plainElement s) := by
  unfold plainElement
  infer_instance

/-- What `filepath.Join` puts in front of two plain elements that follow the
directory `dir`: the cleaned directory and a separator, or nothing. -/
def joinHead (dir : String) : List Char :=
  if dir = "" then []
  else
    let rooted : Bool := dir.toList.head? = some '/'
    let stack := (splitSlash dir.toList).foldl (cleanStep rooted) []
    (if rooted then ['/'] else []) ++ (stack.reverse.map (fun seg => seg ++ ['/'])).flatten

/-- The key under which `InsertData` looks up the writer of a request, the
value of `dir` at line 144. -/
def writerKey {W : Type} (L : Libs W) (i : FileIngest W) (c : Ctx) : String :=
  L.Join [i.Config.DataDir, (i.getField L "X-API-KEY" "api_key" "api_key" c).1,
    (i.getField L "X-SCRATCHDB-TABLE" "table" "table" c).1]

/-- The request passes every check of `InsertData` that comes before the
lookup in the writers map (lines 109 to 142). -/
def reachesWriter {W : Type} (L : Libs W) (i : FileIngest W) (c : Ctx) : Prop :=
  i.Config.Users.lookup (i.getField L "X-API-KEY" "api_key" "api_key" c).1 ≠ none
    ∧ L.jsonValid c.Body = true
    ∧ (i.getField L "X-SCRATCHDB-TABLE" "table" "table" c).1 ≠ ""
    ∧ ∃ root x, L.Unmarshal c.Body = .ok root
      ∧ root.JSONPath
          (if (i.getField L "X-SCRATCHDB-TABLE" "table" "table" c).2 = "body"
            then "$.data" else "$") = .ok x

/-- The request `POST /data?table=t/` of the user `k` with the body `{"a":1}`:
the table name ends in a separator. -/
def exInsertSlash : Ctx :=
  ⟨"POST", [("X-API-KEY", "k")], [("table", "t/")], exObjectBody⟩

/-- The statement `key := fmt.Sprintf("%d/%s/%d.ndjson", ...)` of `WriteData`. -/
def blobKey (databaseID : Int) (table : String) (fileId : Int) : String :=
  toString databaseID ++ "/" ++ table ++ "/" ++ toString fileId ++ ".ndjson"

/-- A data sink over a blob store that is the list of its keys and a queue
that is the list of its messages; `Upload` fails for the key in
`refused`, `Enqueue` succeeds, and the ids are counted up. -/
def exSink (refused : String) : DataSink (List String × List FileUploadMessage) Int :=
  { Upload := fun st key _ =>
      if key = refused then (st, some (GoError.other "upload failed"))
      else ((st.1 ++ [key], st.2), none)
    Enqueue := fun st _ message => ((st.1, st.2 ++ [message]), none)
    Generate := fun n => (n, n + 1) }

/-- The number a text of decimal digits stands for. -/
def decimalValue (digits : List Char) : Nat :=
  digits.foldl (fun acc c => acc * 10 + (c.toNat - 48)) 0

/-- A volume without the marker file on which `free` bytes are free. -/
def exDisk (free : Nat) : Disk :=
  { Stat := fun _ => StatResult.notExist, FreeDiskSpace := fun _ => free }

/-- A BigQuery project in which every call succeeds and every query has the
one row `SEA`. -/
def exBigQuery : BigQueryLib :=
  { NewClient := fun _ => .ok ()
    Run := fun _ => .ok { rows := .ok [["SEA"]], status := .ok () } }

/-- An execution of `QueryJSONPipe` in the directory `/tmp/scratchdata_duckdb1`
in which the query fails at once: its error is the first value on `done`, and
nothing else touches the file system. -/
def exPipeRun : PipeRun :=
  { mkdirTemp := .ok "/tmp/scratchdata_duckdb1"
    mkfifo := none
    during := fun fs => fs
    signal := some (GoError.other "Parser Error: syntax error") }

/-! ## Lemmas on the transcoder loop -/

theorem intercalate_comma_cons (l : Bytes) (ls : List Bytes) :
    List.intercalate [','] (l :: ls) = l ++ (ls.map (fun x => ',' :: x)).flatten := by
  induction ls generalizing l with
  | nil => simp [List.intercalate, List.intersperse]
  | cons l1 ls ih =>
    have := ih l1
    simp [List.intercalate, List.intersperse] at this ⊢
    exact this

theorem transcodeLoop_complete (tail : LineReader)
    (htail : (ReadLine tail).1.err = some GoError.EOF) (ls : List Bytes) :
    ∀ (l : Bytes) (fuel : Nat) (w : Bytes), ls.length + 2 ≤ fuel →
      transcodeLoop bufferWrite fuel (completeLine l) (ls.map completeLine ++ tail) w
        = some (w ++ l ++ (ls.map (fun x => ',' :: x)).flatten, none) := by
  induction ls with
  | nil =>
    intro l fuel w hf
    obtain ⟨f, rfl⟩ : ∃ f, fuel = f + 2 := ⟨fuel - 2, by simp at hf; omega⟩
    simp [transcodeLoop, completeLine, bufferWrite, htail]
  | cons l1 ls ih =>
    intro l fuel w hf
    obtain ⟨f, rfl⟩ : ∃ f, fuel = f + 1 := ⟨fuel - 1, by simp at hf; omega⟩
    have hf1 : ls.length + 2 ≤ f := by simp at hf; omega
    have := ih l1 f (w ++ l ++ [',']) hf1
    simp [transcodeLoop, completeLine, bufferWrite, ReadLine] at this ⊢
    simpa [completeLine] using this

/-- The loop on whole lines ending in `io.EOF`, started from the first read. -/
theorem transcodeLoop_lines (tail : LineReader)
    (htail : (ReadLine tail).1.err = some GoError.EOF) (lines : List Bytes)
    (fuel : Nat) (w : Bytes) (hf : lines.length + 2 ≤ fuel) :
    transcodeLoop bufferWrite fuel (ReadLine (lines.map completeLine ++ tail)).1
        (ReadLine (lines.map completeLine ++ tail)).2 w
      = some (w ++ List.intercalate [','] lines, none) := by
  cases lines with
  | nil =>
    obtain ⟨f, rfl⟩ : ∃ f, fuel = f + 1 := ⟨fuel - 1, by omega⟩
    simp [transcodeLoop, htail, List.intercalate]
  | cons l ls =>
    have hf1 : ls.length + 2 ≤ fuel := by simp at hf; omega
    have := transcodeLoop_complete tail htail ls l fuel w hf1
    rw [intercalate_comma_cons]
    simpa [ReadLine, List.append_assoc] using this

/-- The loop of `FileIngest.Query` is the loop of `QueryJSON` on the response
body of the context. -/
theorem queryLoop_eq_transcodeLoop (fuel : Nat) :
    ∀ (cur : ReadResult) (reader : LineReader) (body : Bytes),
      queryLoop fuel cur reader body = transcodeLoop bufferWrite fuel cur reader body := by
  induction fuel with
  | zero => intro cur reader body; rfl
  | succ f ih =>
    intro cur reader body
    simp only [queryLoop, transcodeLoop, ctxWrite, bufferWrite, ih]

/-- The loop on non-failing results followed by a failing read: it returns the
error of that read, whatever comes after it. -/
theorem transcodeLoop_abort (e : GoError) (he : e ≠ GoError.EOF) (eline : Bytes)
    (epart : Bool) (rest : LineReader) (rs : List ReadResult) :
    ∀ (fuel : Nat) (w : Bytes), (∀ r ∈ rs, r.err = none) → rs.length + 1 ≤ fuel →
      transcodeLoop bufferWrite fuel (ReadLine (rs ++ ⟨eline, epart, some e⟩ :: rest)).1
          (ReadLine (rs ++ ⟨eline, epart, some e⟩ :: rest)).2 w
        = some (w ++ abortedBody rs, some e) := by
  induction rs with
  | nil =>
    intro fuel w _ hf
    obtain ⟨f, rfl⟩ : ∃ f, fuel = f + 1 := ⟨fuel - 1, by simp at hf; omega⟩
    simp [transcodeLoop, ReadLine, abortedBody, he]
  | cons r rs ih =>
    intro fuel w hrs hf
    obtain ⟨f, rfl⟩ : ∃ f, fuel = f + 1 := ⟨fuel - 1, by simp at hf; omega⟩
    have hf1 : rs.length + 1 ≤ f := by simp at hf; omega
    have hr : r.err = none := hrs r (List.mem_cons_self _ _)
    have hrs1 : ∀ x ∈ rs, x.err = none := fun x hx => hrs x (List.mem_cons_of_mem _ hx)
    have hnext : (ReadLine (rs ++ ⟨eline, epart, some e⟩ :: rest)).1.err
        ≠ some GoError.EOF := by
      cases rs with
      | nil => simpa [ReadLine] using he
      | cons r1 rs1 =>
        have := hrs1 r1 (List.mem_cons_self _ _)
        simp [ReadLine, this]
    have step := ih f (w ++ (if r.isPrefix then r.line else r.line ++ [','])) hrs1 hf1
    simp only [List.cons_append, ReadLine, transcodeLoop, hr]
    simp only [ReadLine] at step hnext
    cases hp : r.isPrefix <;>
      simp [hp, bufferWrite, hnext, abortedBody, List.append_assoc] at step ⊢ <;>
      simpa [abortedBody] using step

theorem abortedBody_complete (ls : List Bytes) :
    ∀ l : Bytes, abortedBody ((l :: ls).map completeLine)
      = List.intercalate [','] (l :: ls) ++ [','] := by
  induction ls with
  | nil => intro l; simp [abortedBody, completeLine, List.intercalate, List.intersperse]
  | cons l1 ls ih =>
    intro l
    have h1 := ih l1
    rw [intercalate_comma_cons] at h1 ⊢
    simp [abortedBody, completeLine, List.append_assoc] at h1 ⊢
    exact h1

theorem mem_abortedBody (b : Char) (rs : List ReadResult) (hb : b ≠ ',')
    (h : b ∈ abortedBody rs) : ∃ r ∈ rs, b ∈ r.line := by
  simp only [abortedBody, List.mem_flatten, List.mem_map] at h
  obtain ⟨chunk, ⟨r, hr, rfl⟩, hmem⟩ := h
  refine ⟨r, hr, ?_⟩
  cases hp : r.isPrefix <;> simp [hp] at hmem
  · rcases hmem with h1 | h1
    · exact h1
    · exact absurd h1 hb
  · exact hmem

/-! ## The transcoder: claims C1 to C4 -/

/-- C1: when the line reader returns the lines `l1..ln` whole and then `io.EOF`,
`ClickhouseServer.QueryJSON` and the json branch of `FileIngest.Query` write
exactly `[`, the lines joined by single commas, `]`, and return no error; with
no line the output is `[]`. -/
theorem queryJSON_complete_lines_output {W : Type} (s : ClickhouseServer) (L : Libs W)
    (i : FileIngest W) (c : Ctx) (query user q : String) (resp : HttpResponse)
    (lines : List Bytes) (tail : LineReader) (fuel : Nat) (w0 : Bytes)
    (htail : (ReadLine tail).1.err = some GoError.EOF)
    (hfuel : lines.length + 2 ≤ fuel)
    (hhttp : s.httpQuery (s.sql query) = .ok (lines.map completeLine ++ tail))
    (hpost : c.Method = "POST" → L.BodyParser c = .ok q)
    (hget : c.Method ≠ "POST" → c.Query "q" "" = q)
    (huser : i.Config.Users.lookup (i.getField L "X-API-KEY" "api_key" "" c).1 = some user)
    (hformat : c.Query "format" "json" ≠ "html")
    (hresp : i.query L user q (c.Query "format" "json") = some (.ok resp))
    (hstatus : resp.StatusCode = 200)
    (hlines : resp.lines = lines.map completeLine ++ tail) :
    s.QueryJSON fuel query bufferWrite w0
        = some (w0 ++ ['['] ++ List.intercalate [','] lines ++ [']'], none)
      ∧ i.Query L fuel c
        = some ⟨"application/json", ['['] ++ List.intercalate [','] lines ++ [']'],
            Outcome.nil⟩
      ∧ (lines = [] → s.QueryJSON fuel query bufferWrite w0 = some (w0 ++ ['[', ']'], none)) := by
  have hloop := fun w => transcodeLoop_lines tail htail lines fuel w hfuel
  have hq : s.QueryJSON fuel query bufferWrite w0
      = some (w0 ++ ['['] ++ List.intercalate [','] lines ++ [']'], none) := by
    simp only [ClickhouseServer.sql] at hhttp
    simp only [ClickhouseServer.QueryJSON, hhttp]
    rw [show (bufferWrite w0 ['[']).1 = w0 ++ ['['] from rfl, hloop]
    rfl
  refine ⟨hq, ?_, ?_⟩
  · have hparsed : (if c.Method = "POST" then
          match L.BodyParser c with
          | .error err => (Except.error err : Except GoError String)
          | .ok payloadQuery => .ok payloadQuery
        else .ok (c.Query "q" "")) = .ok q := by
      by_cases hm : c.Method = "POST"
      · simp [hm, hpost hm]
      · simp [hm, hget hm]
    simp only [FileIngest.Query, hparsed, huser, hresp, hstatus, hlines,
      queryLoop_eq_transcodeLoop]
    rw [show (ctxWrite [] ['[']).1 = [] ++ ['['] from rfl, hloop]
    simp [hformat, ctxWrite]
  · intro hnil
    rw [hq, hnil]
    simp [List.intercalate]

/-- Witness of C1: the two rows of the example answer, read by both functions. -/
theorem queryJSON_complete_lines_output_witness :
    (exServer exResponse.lines).QueryJSON 4 "select 1" bufferWrite []
        = some ("[\x7b\"a\":1\x7d,\x7b\"b\":2\x7d]".toList, none)
      ∧ exIngest.Query exLibs 4 ⟨"GET", [("X-API-KEY", "k")], [("q", "select 1")], []⟩
        = some ⟨"application/json", "[\x7b\"a\":1\x7d,\x7b\"b\":2\x7d]".toList, Outcome.nil⟩ := by
  have h := queryJSON_complete_lines_output (exServer exResponse.lines) exLibs exIngest
    ⟨"GET", [("X-API-KEY", "k")], [("q", "select 1")], []⟩ "select 1" "db" "select 1"
    exResponse [exObjectBody, "\x7b\"b\":2\x7d".toList] [] 4 []
    (by decide) (by decide) rfl (fun h => absurd h (by decide)) (fun _ => by decide)
    (by decide) (by decide) rfl rfl rfl
  exact ⟨h.1, h.2.1⟩

/-- C2, refuted as stated: after the single whole line `a` and a failing read
the output is `[a,`, with a comma after the line, and not `[a`. -/
theorem queryJSON_error_after_one_line_output :
    (exServer [completeLine ['a'], exReset]).QueryJSON 3 "select 1" bufferWrite []
        = some (['[', 'a', ','], some (GoError.other "connection reset by peer"))
      ∧ ¬ ∃ err, (exServer [completeLine ['a'], exReset]).QueryJSON 3 "select 1" bufferWrite []
          = some (['[', 'a'], err) := by
  have h : (exServer [completeLine ['a'], exReset]).QueryJSON 3 "select 1" bufferWrite []
      = some (['[', 'a', ','], some (GoError.other "connection reset by peer")) := by decide
  refine ⟨h, ?_⟩
  rintro ⟨err, herr⟩
  rw [h] at herr
  have hfst : some ['[', 'a', ','] = some ['[', 'a'] :=
    congrArg (fun r => r.map (fun x => x.1)) herr
  exact absurd hfst (by decide)

/-- C2 as amended: for `k ≥ 1` whole lines followed by a read error other than
`io.EOF`, `QueryJSON` returns that error and the bytes written are `[`, the
lines joined by commas, and one more comma after the last line; no closing
bracket follows. -/
theorem queryJSON_lines_then_error_output (s : ClickhouseServer) (query : String)
    (lines : List Bytes) (e : GoError) (eline : Bytes) (epart : Bool) (rest : LineReader)
    (fuel : Nat) (w0 : Bytes)
    (hk : lines ≠ [])
    (he : e ≠ GoError.EOF)
    (hfuel : lines.length + 1 ≤ fuel)
    (hhttp : s.httpQuery (s.sql query)
      = .ok (lines.map completeLine ++ ⟨eline, epart, some e⟩ :: rest)) :
    s.QueryJSON fuel query bufferWrite w0
      = some (w0 ++ ['['] ++ List.intercalate [','] lines ++ [','], some e) := by
  obtain ⟨l, ls, rfl⟩ : ∃ l ls, lines = l :: ls := by
    cases lines with
    | nil => exact absurd rfl hk
    | cons l ls => exact ⟨l, ls, rfl⟩
  have hrs : ∀ r ∈ (l :: ls).map completeLine, r.err = none := by
    intro r hr
    obtain ⟨x, _, rfl⟩ := List.mem_map.mp hr
    rfl
  have hloop := transcodeLoop_abort e he eline epart rest ((l :: ls).map completeLine)
    fuel (w0 ++ ['[']) hrs (by simpa using hfuel)
  simp only [ClickhouseServer.sql] at hhttp
  simp only [ClickhouseServer.QueryJSON, hhttp]
  rw [show (bufferWrite w0 ['[']).1 = w0 ++ ['['] from rfl, hloop, abortedBody_complete]
  simp [List.append_assoc]

/-- Witness of C2 as amended: the lines `a` and `b`, then a connection reset. -/
theorem queryJSON_lines_then_error_output_witness :
    (exServer [completeLine ['a'], completeLine ['b'], exReset]).QueryJSON 3 "select 1"
        bufferWrite []
      = some (['['] ++ List.intercalate [','] [['a'], ['b']] ++ [','],
          some (GoError.other "connection reset by peer")) :=
  queryJSON_lines_then_error_output (exServer [completeLine ['a'], completeLine ['b'], exReset])
    "select 1" [['a'], ['b']] (GoError.other "connection reset by peer") [] false [] 3 []
    (by decide) (by decide) (by decide) rfl

/-- C3: when the reads give results without error and then fail with an error
`e` other than `io.EOF`, be it on the very first read, `QueryJSON` returns
exactly `e`, and what it has written is `[` and the fragments read before the
failure: no closing bracket is written, so the output holds no `]` unless a
line read holds one. -/
theorem queryJSON_read_error_returned (s : ClickhouseServer) (query : String)
    (rs : List ReadResult) (e : GoError) (eline : Bytes) (epart : Bool) (rest : LineReader)
    (fuel : Nat) (w0 : Bytes)
    (hrs : ∀ r ∈ rs, r.err = none)
    (he : e ≠ GoError.EOF)
    (hfuel : rs.length + 1 ≤ fuel)
    (hhttp : s.httpQuery (s.sql query) = .ok (rs ++ ⟨eline, epart, some e⟩ :: rest)) :
    s.QueryJSON fuel query bufferWrite w0 = some (w0 ++ '[' :: abortedBody rs, some e)
      ∧ ((∀ r ∈ rs, ']' ∉ r.line) → ']' ∉ '[' :: abortedBody rs) := by
  constructor
  · have hloop := transcodeLoop_abort e he eline epart rest rs fuel (w0 ++ ['[']) hrs hfuel
    simp only [ClickhouseServer.sql] at hhttp
    simp only [ClickhouseServer.QueryJSON, hhttp]
    rw [show (bufferWrite w0 ['[']).1 = w0 ++ ['['] from rfl, hloop]
    simp [List.append_assoc]
  · intro hno hmem
    rcases List.mem_cons.mp hmem with h | h
    · exact absurd h (by decide)
    · obtain ⟨r, hr, hin⟩ := mem_abortedBody ']' rs (by decide) h
      exact hno r hr hin

/-- Witness of C3: the read fails at once, only `[` is written. -/
theorem queryJSON_read_error_returned_witness :
    (exServer [exReset]).QueryJSON 1 "select 1" bufferWrite []
        = some (['['], some (GoError.other "connection reset by peer"))
      ∧ ((∀ r ∈ ([] : List ReadResult), ']' ∉ r.line) → ']' ∉ ['[']) :=
  queryJSON_read_error_returned (exServer [exReset]) "select 1" []
    (GoError.other "connection reset by peer") [] false [] 1 []
    (by simp) (by decide) (by decide) rfl

/-- C4, on the failing input: every `Write` of the writer fails, the reader
gives one row and then `io.EOF`, and `QueryJSON` returns `nil`. -/
theorem queryJSON_broken_writer_returns_nil :
    (∀ (w p : Bytes), (brokenWrite w p).2 ≠ none)
      ∧ (exServer [completeLine exObjectBody]).QueryJSON 3 "select 1" brokenWrite []
        = some ([], none) := by
  constructor
  · intro w p; simp [brokenWrite]
  · decide

/-! ## Ingestion: claims C5 to C8 -/

/-- The loop over the elements of an array in join mode writes one row per
element, in order, when every element flattens. -/
theorem insertObjects_join {W : Type} (L : Libs W) (alg : String) (halg : alg ≠ "explode")
    (objects : List Node) :
    ∀ (writer : W) (written : List String),
      (∀ o ∈ objects, ∃ flat, L.FlattenString (L.nodeString o) = .ok flat) →
      ∃ writer1, insertObjects L alg objects writer written
        = (writer1, written ++ objects.filterMap
            (fun o => (L.FlattenString (L.nodeString o)).toOption), none) := by
  induction objects with
  | nil => intro writer written _; exact ⟨writer, by simp [insertObjects]⟩
  | cons o rest ih =>
    intro writer written hall
    obtain ⟨flat, hflat⟩ := hall o (List.mem_cons_self _ _)
    obtain ⟨writer1, h1⟩ := ih (L.Write writer flat).1 (written ++ [flat])
      (fun x hx => hall x (List.mem_cons_of_mem _ hx))
    refine ⟨writer1, ?_⟩
    simp [insertObjects, halg, hflat, h1, Except.toOption]

theorem filterMap_flatten_length {W : Type} (L : Libs W) (objects : List Node)
    (hall : ∀ o ∈ objects, ∃ flat, L.FlattenString (L.nodeString o) = .ok flat) :
    (objects.filterMap (fun o => (L.FlattenString (L.nodeString o)).toOption)).length
      = objects.length := by
  induction objects with
  | nil => rfl
  | cons o rest ih =>
    obtain ⟨flat, hflat⟩ := hall o (List.mem_cons_self _ _)
    have := ih (fun x hx => hall x (List.mem_cons_of_mem _ hx))
    simp only [List.filterMap_cons, hflat, Except.toOption, List.length_cons]
    simp only [Except.toOption] at this
    rw [this]

/-- C5: in join mode, that is for every value of the flatten parameter other
than `explode`, the absent value included, an authorised request with valid
JSON and a table name makes exactly one `writer.Write` call when the data is one
object that flattens, and exactly one call per element, in array order, when the
data is an array whose elements all flatten. -/
theorem insertData_join_row_count {W : Type} (L : Libs W) (i : FileIngest W) (c : Ctx)
    (db table location : String) (root x0 : Node) (more : List Node)
    (hkey : i.Config.Users.lookup (i.getField L "X-API-KEY" "api_key" "api_key" c).1 = some db)
    (hvalid : L.jsonValid c.Body = true)
    (htable : i.getField L "X-SCRATCHDB-TABLE" "table" "table" c = (table, location))
    (hname : table ≠ "")
    (hjoin : (i.getField L "X-SCRATCHDB-FLATTEN" "flatten" "flatten" c).1 ≠ "explode")
    (hroot : L.Unmarshal c.Body = .ok root)
    (hpath : root.JSONPath (if location = "body" then "$.data" else "$") = .ok (x0 :: more)) :
    (∀ children flat, x0 = Node.object children →
        L.FlattenString (L.nodeString x0) = .ok flat →
        (i.InsertData L c).written = [flat])
      ∧ (∀ objects, x0 = Node.array objects →
        (∀ o ∈ objects, ∃ flat, L.FlattenString (L.nodeString o) = .ok flat) →
        (i.InsertData L c).written
            = objects.filterMap (fun o => (L.FlattenString (L.nodeString o)).toOption)
          ∧ (i.InsertData L c).written.length = objects.length) := by
  constructor
  · intro children flat hx hflat
    subst hx
    simp only [FileIngest.InsertData, hkey, hvalid, htable, hname, hroot, hpath]
    simp only [Node.Type, hjoin, hflat, Bool.not_true, Bool.false_eq_true, if_false, reduceCtorEq]
    generalize (match List.lookup (L.Join [i.Config.DataDir,
      (i.getField L "X-API-KEY" "api_key" "api_key" c).1, table]) i.writers with
      | some writer => (writer, i.writers)
      | none => _) = pair
    rcases L.Write pair.1 flat with ⟨writer1, _ | err⟩ <;> rfl
  · intro objects hx hall
    subst hx
    have hw : (i.InsertData L c).written
        = objects.filterMap (fun o => (L.FlattenString (L.nodeString o)).toOption) := by
      simp only [FileIngest.InsertData, hkey, hvalid, htable, hname, hroot, hpath]
      simp only [Node.Type, Node.GetArray, Bool.not_true, Bool.false_eq_true, if_false, if_true]
      generalize (match List.lookup (L.Join [i.Config.DataDir,
        (i.getField L "X-API-KEY" "api_key" "api_key" c).1, table]) i.writers with
        | some writer => (writer, i.writers)
        | none => _) = pair
      obtain ⟨writer1, h1⟩ := insertObjects_join L _ hjoin objects pair.1 [] hall
      rw [h1]
      simp
    exact ⟨hw, by rw [hw]; exact filterMap_flatten_length L objects hall⟩

/-- Witness of C5: the array `[{"a":1},{"b":2}]` sent to `/data?table=t` is
written as its two rows, in order. -/
theorem insertData_join_row_count_witness :
    (exIngest.InsertData exLibs (exInsert exArrayBody)).written
        = [Node.object [("a", Node.numeric "1")], Node.object [("b", Node.numeric "2")]].filterMap
            (fun o => (exLibs.FlattenString (exLibs.nodeString o)).toOption)
      ∧ (exIngest.InsertData exLibs (exInsert exArrayBody)).written.length = 2 :=
  (insertData_join_row_count exLibs exIngest (exInsert exArrayBody) "db" "t" "query"
    (Node.array [Node.object [("a", Node.numeric "1")], Node.object [("b", Node.numeric "2")]])
    (Node.array [Node.object [("a", Node.numeric "1")], Node.object [("b", Node.numeric "2")]])
    [] (by decide) (by decide) (by decide) (by decide) (by decide) rfl rfl).2
    [Node.object [("a", Node.numeric "1")], Node.object [("b", Node.numeric "2")]] rfl
    (by
      intro o ho
      simp only [List.mem_cons, List.mem_singleton, List.not_mem_nil, or_false] at ho
      rcases ho with rfl | rfl
      · exact ⟨_, rfl⟩
      · exact ⟨_, rfl⟩)

/-- C6, on failing inputs: on a volume out of space every `Write` fails, yet
the array body in join mode and the object body in explode mode are answered
with `ok` and no error; only the object body in join mode is rejected. -/
theorem insertData_write_failure_answered_ok :
    (∀ (rows : List String) (row : String), (fullDiskLibs.Write rows row).2 ≠ none)
      ∧ (exIngest.InsertData fullDiskLibs (exInsert exArrayBody)).written
          = ["\x7b\"a\":1\x7d", "\x7b\"b\":2\x7d"]
      ∧ (exIngest.InsertData fullDiskLibs (exInsert exArrayBody)).outcome = Outcome.nil
      ∧ (exIngest.InsertData fullDiskLibs (exInsert exArrayBody)).body = ['o', 'k']
      ∧ (exIngest.InsertData fullDiskLibs
          ⟨"POST", [("X-API-KEY", "k")], [("table", "t"), ("flatten", "explode")],
            exObjectBody⟩).outcome = Outcome.nil
      ∧ (exIngest.InsertData fullDiskLibs (exInsert exObjectBody)).outcome
          = Outcome.fiberError 400 "insufficient disk space" := by
  refine ⟨?_, by decide, by decide, by decide, by decide, by decide⟩
  intro rows row
  simp [fullDiskLibs]

/-- C7, on the failing input: the body `5` is valid JSON and neither an object
nor an array; the handler writes no row and answers `ok` without an error. -/
theorem insertData_scalar_body_answered_ok :
    exLibs.jsonValid exNumberBody = true
      ∧ (exIngest.InsertData exLibs (exInsert exNumberBody)).written = []
      ∧ (exIngest.InsertData exLibs (exInsert exNumberBody)).outcome = Outcome.nil
      ∧ (exIngest.InsertData exLibs (exInsert exNumberBody)).body = ['o', 'k'] := by
  decide

/-- C8: `InsertData` answers 401 whenever the resolved API key is no key of
`Config.Users`, whatever the body is; otherwise 400 when the body is not valid
JSON; otherwise 400 with the reason `You must specify a table name` when no
table name is resolved. In each of the three cases the server state, the
writers map included, is left as it was, and no row is written. -/
theorem insertData_rejections_in_order {W : Type} (L : Libs W) (i : FileIngest W) (c : Ctx) :
    (i.Config.Users.lookup (i.getField L "X-API-KEY" "api_key" "api_key" c).1 = none →
        i.InsertData L c = ⟨i, [], [], Outcome.fiberError 401 "Unauthorized"⟩)
      ∧ (i.Config.Users.lookup (i.getField L "X-API-KEY" "api_key" "api_key" c).1 ≠ none →
        L.jsonValid c.Body = false →
        i.InsertData L c = ⟨i, [], [], Outcome.fiberError 400 "Bad Request"⟩)
      ∧ (i.Config.Users.lookup (i.getField L "X-API-KEY" "api_key" "api_key" c).1 ≠ none →
        L.jsonValid c.Body = true →
        (i.getField L "X-SCRATCHDB-TABLE" "table" "table" c).1 = "" →
        i.InsertData L c
          = ⟨i, [], [], Outcome.fiberError 400 "You must specify a table name"⟩) := by
  refine ⟨?_, ?_, ?_⟩
  · intro hkey
    simp only [FileIngest.InsertData, hkey]
    rfl
  · intro hkey hvalid
    obtain ⟨db, hdb⟩ := Option.ne_none_iff_exists'.mp hkey
    simp only [FileIngest.InsertData, hdb, hvalid]
    rfl
  · intro hkey hvalid htable
    obtain ⟨db, hdb⟩ := Option.ne_none_iff_exists'.mp hkey
    simp only [FileIngest.InsertData, hdb, hvalid]
    rcases hfield : i.getField L "X-SCRATCHDB-TABLE" "table" "table" c with ⟨name, location⟩
    rw [hfield] at htable
    simp only at htable
    subst htable
    simp

/-- Witness of C8: a request with the unknown key `nobody` and a body that is no
JSON is answered 401 and leaves the writers map empty. -/
theorem insertData_rejections_in_order_witness :
    exIngest.Config.Users.lookup
        (exIngest.getField exLibs "X-API-KEY" "api_key" "api_key"
          ⟨"POST", [("X-API-KEY", "nobody")], [("table", "t")], ['x']⟩).1 = none
      ∧ exIngest.InsertData exLibs ⟨"POST", [("X-API-KEY", "nobody")], [("table", "t")], ['x']⟩
        = ⟨exIngest, [], [], Outcome.fiberError 401 "Unauthorized"⟩ :=
  ⟨by decide,
    (insertData_rejections_in_order exLibs exIngest
      ⟨"POST", [("X-API-KEY", "nobody")], [("table", "t")], ['x']⟩).1 (by decide)⟩

/-! ## Resolution of request fields: claims C9 and C10 -/

/-- The result of `getField` when the body is not consulted: the header value,
else the query parameter, else nothing. -/
theorem getField_no_body {W : Type} (L : Libs W) (i : FileIngest W) (header query : String)
    (c : Ctx) :
    i.getField L header query "" c
      = if c.Get header ≠ "" then (c.Get header, "header")
        else if c.Query query "" ≠ "" then (c.Query query "", "query")
        else ("", "") := by
  by_cases hh : c.Get header = ""
  · by_cases hq : c.Query query "" = "" <;> simp [FileIngest.getField, hh, hq]
  · simp [FileIngest.getField, hh]

/-- C9: `getField` returns `(h, header)` when the header value `h` is not empty,
whatever the query parameter and the body hold; otherwise `(q, query)` when the
query parameter `q` is not empty, whatever the body holds; otherwise `(v, body)`
when a body field name is given and the body parses to an object holding the
non-empty string `v` under that name; and otherwise two empty strings. -/
theorem getField_precedence {W : Type} (L : Libs W) (i : FileIngest W)
    (header query body : String) (c : Ctx) :
    (c.Get header ≠ "" → i.getField L header query body c = (c.Get header, "header"))
      ∧ (c.Get header = "" → c.Query query "" ≠ "" →
        i.getField L header query body c = (c.Query query "", "query"))
      ∧ (∀ (children : List (String × Node)) (v : String),
        c.Get header = "" → c.Query query "" = "" → body ≠ "" →
        L.Unmarshal c.Body = .ok (Node.object children) →
        children.lookup body = some (Node.string v) → v ≠ "" →
        i.getField L header query body c = (v, "body"))
      ∧ (c.Get header = "" → c.Query query "" = "" →
        ¬ (body ≠ "" ∧ ∃ (children : List (String × Node)) (v : String),
            L.Unmarshal c.Body = .ok (Node.object children)
              ∧ children.lookup body = some (Node.string v) ∧ v ≠ "") →
        i.getField L header query body c = ("", "")) := by
  refine ⟨?_, ?_, ?_, ?_⟩
  · intro hh
    simp [FileIngest.getField, hh]
  · intro hh hq
    simp [FileIngest.getField, hh, hq]
  · intro children v hh hq hb hroot hchild hv
    simp [FileIngest.getField, hh, hq, hb, hroot, Node.GetKey, hchild, Node.GetString, hv]
  · intro hh hq hnone
    by_cases hb : body = ""
    · simp [FileIngest.getField, hh, hq, hb]
    · simp only [FileIngest.getField, hh, hq, if_true, ne_eq, hb, not_false_eq_true, and_self]
      cases hroot : L.Unmarshal c.Body with
      | error err => rfl
      | ok root =>
        cases root with
        | object children =>
          cases hchild : children.lookup body with
          | none => simp [Node.GetKey, hchild, Node.GetString]
          | some child =>
            cases child with
            | string v =>
              by_cases hv : v = ""
              · simp [Node.GetKey, hchild, Node.GetString, hv]
              · exact absurd ⟨hb, children, v, hroot, hchild, hv⟩ hnone
            | _ => simp [Node.GetKey, hchild, Node.GetString]
        | _ => simp [Node.GetKey, Node.GetString]

/-- Witness of C9: with no header and no query parameter the API key `k` is
taken from the field `api_key` of the body. -/
theorem getField_precedence_witness :
    exIngest.getField exLibs "X-API-KEY" "api_key" "api_key" exQuery
      = ("k", "body") :=
  (getField_precedence exLibs exIngest "X-API-KEY" "api_key" "api_key"
    exQuery).2.2.1
    [("api_key", Node.string "k"), ("query", Node.string "select 1")] "k"
    (by decide) (by decide) (by decide) rfl rfl (by decide)

/-- C10, refuted as stated: the request `POST /query` has no `X-API-KEY` header
and no `api_key` parameter, its body is `{"api_key":"k","query":"select 1"}`
and `k` is a key of `Config.Users`; it is answered 401. -/
theorem query_body_api_key_unauthorized :
    exQuery.Get "X-API-KEY" = "" ∧ exQuery.Query "api_key" "" = ""
      ∧ exIngest.Config.Users.lookup "k" = some "db"
      ∧ exIngest.getField exLibs "X-API-KEY" "api_key" "api_key" exQuery
        = ("k", "body")
      ∧ exIngest.Query exLibs 4 exQuery
        = some ⟨"", [], Outcome.fiberError 401 "Unauthorized"⟩ := by
  decide

/-- C10 as amended: `Query` resolves the API key from the header `X-API-KEY`,
then from the query parameter `api_key`, and does not consult the body. For a
request with neither, whatever its body holds, the resolved key is the empty
string, and once the body of a POST has parsed the request is answered 401
unless the empty string is a key of `Config.Users`. -/
theorem query_api_key_from_header_then_query {W : Type} (L : Libs W) (i : FileIngest W)
    (fuel : Nat) (c : Ctx) :
    (c.Get "X-API-KEY" ≠ "" →
        i.getField L "X-API-KEY" "api_key" "" c = (c.Get "X-API-KEY", "header"))
      ∧ (c.Get "X-API-KEY" = "" → c.Query "api_key" "" ≠ "" →
        i.getField L "X-API-KEY" "api_key" "" c = (c.Query "api_key" "", "query"))
      ∧ (c.Get "X-API-KEY" = "" → c.Query "api_key" "" = "" →
        i.getField L "X-API-KEY" "api_key" "" c = ("", "")
          ∧ (i.Config.Users.lookup "" = none →
            (c.Method = "POST" → ∃ q, L.BodyParser c = .ok q) →
            i.Query L fuel c = some ⟨"", [], Outcome.fiberError 401 "Unauthorized"⟩)) := by
  refine ⟨?_, ?_, ?_⟩
  · intro hh
    rw [getField_no_body]; simp [hh]
  · intro hh hq
    rw [getField_no_body]; simp [hh, hq]
  · intro hh hq
    have hfield : i.getField L "X-API-KEY" "api_key" "" c = ("", "") := by
      rw [getField_no_body]; simp [hh, hq]
    refine ⟨hfield, ?_⟩
    intro hnone hparse
    by_cases hm : c.Method = "POST"
    · obtain ⟨q, hq1⟩ := hparse hm
      simp only [FileIngest.Query, hm, hq1, hfield, hnone, if_true]
      rfl
    · simp only [FileIngest.Query, hm, hfield, hnone, if_false]
      rfl

/-- Witness of C10 as amended: the body names the user `k`, the request has no
header and no parameter with the key, and the answer is 401. -/
theorem query_api_key_from_header_then_query_witness :
    exIngest.getField exLibs "X-API-KEY" "api_key" "" exQuery = ("", "")
      ∧ exIngest.Query exLibs 4 exQuery
        = some ⟨"", [], Outcome.fiberError 401 "Unauthorized"⟩ :=
  have h := (query_api_key_from_header_then_query exLibs exIngest 4
    exQuery).2.2 (by decide) (by decide)
  ⟨h.1, h.2 (by decide) (fun _ => ⟨"select 1", rfl⟩)⟩

/-! ## Lines delivered in fragments: claim C17 -/

theorem ReadLine_cons (r : ReadResult) (rest : LineReader) :
    ReadLine (r :: rest) = (r, rest) := rfl

/-- The loop on non-failing results followed by `io.EOF`. -/
theorem transcodeLoop_eof (tail : LineReader)
    (htail : (ReadLine tail).1.err = some GoError.EOF) (rs : List ReadResult) :
    ∀ (fuel : Nat) (w : Bytes), (∀ r ∈ rs, r.err = none) → rs.length + 1 ≤ fuel →
      transcodeLoop bufferWrite fuel (ReadLine (rs ++ tail)).1 (ReadLine (rs ++ tail)).2 w
        = some (w ++ eofBody rs, none) := by
  induction rs with
  | nil =>
    intro fuel w _ hf
    obtain ⟨f, rfl⟩ : ∃ f, fuel = f + 1 := ⟨fuel - 1, by simp at hf; omega⟩
    simp [transcodeLoop, htail, eofBody]
  | cons r rs ih =>
    intro fuel w hrs hf
    obtain ⟨f, rfl⟩ : ∃ f, fuel = f + 1 := ⟨fuel - 1, by simp at hf; omega⟩
    have hf1 : rs.length + 1 ≤ f := by simp at hf; omega
    have hr : r.err = none := hrs r (List.mem_cons_self _ _)
    have hrs1 : ∀ x ∈ rs, x.err = none := fun x hx => hrs x (List.mem_cons_of_mem _ hx)
    simp only [List.cons_append, ReadLine_cons, transcodeLoop, hr]
    cases rs with
    | nil =>
      have step := ih f (w ++ r.line) hrs1 hf1
      simp only [List.nil_append] at step ⊢
      simp [htail, bufferWrite, eofBody] at step ⊢
      exact step
    | cons r1 rs1 =>
      have hr1 : r1.err = none := hrs1 r1 (List.mem_cons_self _ _)
      have step := ih f (w ++ (r.line ++ (if r.isPrefix then [] else [',']))) hrs1 hf1
      simp only [List.cons_append, ReadLine_cons] at step ⊢
      cases hp : r.isPrefix <;>
        simp [hp, hr1, bufferWrite, eofBody, List.append_assoc] at step ⊢ <;>
        exact step

theorem eofBody_cons_of_ne_nil (r : ReadResult) (rest : List ReadResult) (h : rest ≠ []) :
    eofBody (r :: rest) = r.line ++ (if r.isPrefix then [] else [',']) ++ eofBody rest := by
  cases rest with
  | nil => exact absurd rfl h
  | cons r1 rs => rfl

theorem eofBody_fragments (final : Bytes) (rest : List ReadResult) (heads : List Bytes) :
    eofBody (heads.map (fun f => (⟨f, true, none⟩ : ReadResult)) ++ ⟨final, false, none⟩ :: rest)
      = heads.flatten ++ final ++ (if rest = [] then [] else ',' :: eofBody rest) := by
  induction heads with
  | nil =>
    cases rest with
    | nil => simp [eofBody]
    | cons r1 rs => simp [eofBody]
  | cons h hs ih =>
    rw [List.map_cons, List.cons_append, eofBody_cons_of_ne_nil _ _ (by simp), ih]
    simp [List.append_assoc]

theorem results_ne_nil (l : Fragments) : l.results ≠ [] := by
  simp [Fragments.results]

theorem eofBody_lines (ls : List Fragments) :
    ∀ l : Fragments, eofBody (((l :: ls).map Fragments.results).flatten)
      = l.line ++ (ls.map (fun x => ',' :: x.line)).flatten := by
  induction ls with
  | nil =>
    intro l
    have := eofBody_fragments l.final [] l.heads
    simpa [Fragments.results, Fragments.line] using this
  | cons l1 ls ih =>
    intro l
    have hne : ((l1 :: ls).map Fragments.results).flatten ≠ [] := by
      simp only [List.map_cons, List.flatten_cons, ne_eq, List.append_eq_nil, not_and]
      intro h
      exact absurd h (results_ne_nil l1)
    have := eofBody_fragments l.final (((l1 :: ls).map Fragments.results).flatten) l.heads
    rw [if_neg hne, ih l1] at this
    simpa [Fragments.results, Fragments.line, List.append_assoc] using this

theorem results_err_none (lines : List Fragments) :
    ∀ r ∈ (lines.map Fragments.results).flatten, r.err = none := by
  intro r hr
  simp only [List.mem_flatten, List.mem_map] at hr
  obtain ⟨rs, ⟨l, _, rfl⟩, hmem⟩ := hr
  simp only [Fragments.results, List.mem_append, List.mem_map, List.mem_singleton] at hmem
  rcases hmem with ⟨f, _, rfl⟩ | rfl <;> rfl

theorem count_comma_intercalate (lines : List Bytes) :
    (List.intercalate [','] lines).count ','
      = (lines.map (fun l => l.count ',')).sum + (lines.length - 1) := by
  cases lines with
  | nil => simp [List.intercalate]
  | cons l ls =>
    rw [intercalate_comma_cons]
    have key : ∀ xs : List Bytes, ((xs.map (fun x => ',' :: x)).flatten).count ','
        = (xs.map (fun l => l.count ',')).sum + xs.length := by
      intro xs
      induction xs with
      | nil => simp
      | cons x xs ih =>
        simp only [List.map_cons, List.flatten_cons, List.count_append, ih, List.sum_cons,
          List.length_cons, List.count_cons_self]
        omega
    simp only [List.count_append, key, List.map_cons, List.sum_cons, List.length_cons]
    omega

/-- C17: when every line arrives as fragments, all but the last returned with
`isPrefix = true`, and the reads end in `io.EOF`, `QueryJSON` writes the
fragments of a line one after the other and a comma only between two lines: the
output is `[`, the lines put together again and joined by commas, `]`, and the
joining adds exactly `n - 1` commas to those the `n` lines hold themselves. -/
theorem queryJSON_fragments_output (s : ClickhouseServer) (query : String)
    (lines : List Fragments) (tail : LineReader) (fuel : Nat) (w0 : Bytes)
    (htail : (ReadLine tail).1.err = some GoError.EOF)
    (hfuel : ((lines.map Fragments.results).flatten).length + 1 ≤ fuel)
    (hhttp : s.httpQuery (s.sql query) = .ok ((lines.map Fragments.results).flatten ++ tail)) :
    s.QueryJSON fuel query bufferWrite w0
        = some (w0 ++ ['['] ++ List.intercalate [','] (lines.map Fragments.line) ++ [']'], none)
      ∧ (List.intercalate [','] (lines.map Fragments.line)).count ','
        = (lines.map (fun l => l.line.count ',')).sum + (lines.length - 1) := by
  constructor
  · have hloop := transcodeLoop_eof tail htail ((lines.map Fragments.results).flatten) fuel
      (w0 ++ ['[']) (results_err_none lines) hfuel
    have hbody : eofBody ((lines.map Fragments.results).flatten)
        = List.intercalate [','] (lines.map Fragments.line) := by
      cases lines with
      | nil => simp [eofBody, List.intercalate]
      | cons l ls =>
        rw [eofBody_lines, List.map_cons, intercalate_comma_cons]
        simp [List.map_map, Function.comp_def]
    simp only [ClickhouseServer.sql] at hhttp
    simp only [ClickhouseServer.QueryJSON, hhttp]
    rw [show (bufferWrite w0 ['[']).1 = w0 ++ ['['] from rfl, hloop, hbody]
    rfl
  · have := count_comma_intercalate (lines.map Fragments.line)
    simpa [List.map_map, Function.comp_def] using this

/-- Witness of C17: the line `ab` arrives as `a` and `b`, the line `c` whole. -/
theorem queryJSON_fragments_output_witness :
    (exServer [⟨['a'], true, none⟩, ⟨['b'], false, none⟩, ⟨['c'], false, none⟩]).QueryJSON 4
        "select 1" bufferWrite []
      = some (['[', 'a', 'b', ',', 'c', ']'], none) :=
  (queryJSON_fragments_output
    (exServer [⟨['a'], true, none⟩, ⟨['b'], false, none⟩, ⟨['c'], false, none⟩]) "select 1"
    [⟨[['a']], ['b']⟩, ⟨[], ['c']⟩] [] 4 [] (by decide) (by decide) rfl).1

/-! ## Array bodies and the data path: claims C18 and C19 -/

theorem insertObjects_cons_ok {W : Type} (L : Libs W) (alg : String) (o : Node)
    (rest : List Node) (rows : List String) (h : flattenRows L alg o = .ok rows)
    (writer : W) (written : List String) :
    ∃ writer0, insertObjects L alg (o :: rest) writer written
      = insertObjects L alg rest writer0 (written ++ rows) := by
  by_cases halg : alg = "explode"
  · have hfj : L.FlattenJSON (L.nodeString o) = .ok rows := by
      simpa [flattenRows, halg] using h
    exact ⟨writeFlats L rows writer, by simp only [insertObjects, halg, if_true, hfj]⟩
  · cases hfs : L.FlattenString (L.nodeString o) with
    | error err =>
      simp only [flattenRows, halg, if_false, hfs] at h
      exact absurd h (by simp)
    | ok flat =>
      have hr : rows = [flat] := by
        simp only [flattenRows, halg, if_false, hfs, Except.ok.injEq] at h
        exact h.symm
      subst hr
      exact ⟨(L.Write writer flat).1, by simp only [insertObjects, halg, if_false, hfs]⟩

theorem insertObjects_cons_error {W : Type} (L : Libs W) (alg : String) (o : Node)
    (rest : List Node) (e : GoError) (h : flattenRows L alg o = .error e)
    (writer : W) (written : List String) :
    insertObjects L alg (o :: rest) writer written = (writer, written, some e) := by
  by_cases halg : alg = "explode"
  · have hfj : L.FlattenJSON (L.nodeString o) = .error e := by
      simpa [flattenRows, halg] using h
    simp only [insertObjects, halg, if_true, hfj]
  · cases hfs : L.FlattenString (L.nodeString o) with
    | error err =>
      simp only [flattenRows, halg, if_false, hfs, Except.error.injEq] at h
      subst h
      simp only [insertObjects, halg, if_false, hfs]
    | ok flat =>
      simp only [flattenRows, halg, if_false, hfs] at h
      exact absurd h (by simp)

/-- The loop over the elements of an array stops at the first element that does
not flatten, having written the rows of the elements before it. -/
theorem insertObjects_stops {W : Type} (L : Libs W) (alg : String) (bad : Node)
    (after : List Node) (e : GoError) (hbad : flattenRows L alg bad = .error e)
    (before : List Node) :
    ∀ (writer : W) (written : List String),
      (∀ o ∈ before, ∃ rows, flattenRows L alg o = .ok rows) →
      ∃ writer1, insertObjects L alg (before ++ bad :: after) writer written
        = (writer1, written ++ (before.map (rowsOf L alg)).flatten, some e) := by
  induction before with
  | nil =>
    intro writer written _
    exact ⟨writer, by simpa using insertObjects_cons_error L alg bad after e hbad writer written⟩
  | cons o rest ih =>
    intro writer written hall
    obtain ⟨rows, hrows⟩ := hall o (List.mem_cons_self _ _)
    obtain ⟨writer0, h0⟩ := insertObjects_cons_ok L alg o (rest ++ bad :: after) rows hrows
      writer written
    obtain ⟨writer1, h1⟩ := ih writer0 (written ++ rows)
      (fun x hx => hall x (List.mem_cons_of_mem _ hx))
    refine ⟨writer1, ?_⟩
    rw [List.cons_append, h0, h1]
    simp [rowsOf, hrows, List.append_assoc]

/-- C18: for an array body in which the elements before some element flatten and
that element does not, `InsertData` has passed exactly the rows of the elements
before it to `writer.Write`, in array order, writes no row of that element or a
later one, and returns the flattening error, not `ok`. -/
theorem insertData_array_stops_at_failure {W : Type} (L : Libs W) (i : FileIngest W) (c : Ctx)
    (db table location : String) (root bad : Node) (before after more : List Node)
    (e : GoError)
    (hkey : i.Config.Users.lookup (i.getField L "X-API-KEY" "api_key" "api_key" c).1 = some db)
    (hvalid : L.jsonValid c.Body = true)
    (htable : i.getField L "X-SCRATCHDB-TABLE" "table" "table" c = (table, location))
    (hname : table ≠ "")
    (hroot : L.Unmarshal c.Body = .ok root)
    (hpath : root.JSONPath (if location = "body" then "$.data" else "$")
      = .ok (Node.array (before ++ bad :: after) :: more))
    (hbefore : ∀ o ∈ before, ∃ rows,
      flattenRows L (i.getField L "X-SCRATCHDB-FLATTEN" "flatten" "flatten" c).1 o = .ok rows)
    (hbad : flattenRows L (i.getField L "X-SCRATCHDB-FLATTEN" "flatten" "flatten" c).1 bad
      = .error e) :
    (i.InsertData L c).written
        = (before.map
            (rowsOf L (i.getField L "X-SCRATCHDB-FLATTEN" "flatten" "flatten" c).1)).flatten
      ∧ (i.InsertData L c).outcome = Outcome.error e
      ∧ (i.InsertData L c).body = [] := by
  have hres : ∃ ing, i.InsertData L c
      = ⟨ing, (before.map
          (rowsOf L (i.getField L "X-SCRATCHDB-FLATTEN" "flatten" "flatten" c).1)).flatten, [],
          Outcome.error e⟩ := by
    simp only [FileIngest.InsertData, hkey, hvalid, htable, hname, hroot, hpath]
    simp only [Node.Type, Node.GetArray, Bool.not_true, Bool.false_eq_true, if_false, if_true]
    generalize (match List.lookup (L.Join [i.Config.DataDir,
      (i.getField L "X-API-KEY" "api_key" "api_key" c).1, table]) i.writers with
      | some writer => (writer, i.writers)
      | none => _) = pair
    obtain ⟨writer1, h1⟩ := insertObjects_stops L _ bad after e hbad before pair.1 [] hbefore
    rw [h1]
    simp only [List.nil_append]
    exact ⟨_, rfl⟩
  obtain ⟨ing, hing⟩ := hres
  rw [hing]
  exact ⟨rfl, rfl, rfl⟩

/-- Witness of C18: in the array `[{"a":1},5]` the number does not flatten; the
row of the object before it is written and the error is returned. -/
theorem insertData_array_stops_at_failure_witness :
    (exIngest.InsertData exLibs (exInsert exMixedBody)).written = ["\x7b\"a\":1\x7d"]
      ∧ (exIngest.InsertData exLibs (exInsert exMixedBody)).outcome
        = Outcome.error (GoError.other "Not a valid input: should be a valid JSON")
      ∧ (exIngest.InsertData exLibs (exInsert exMixedBody)).body = [] :=
  insertData_array_stops_at_failure exLibs exIngest (exInsert exMixedBody) "db" "t" "query"
    (Node.array [Node.object [("a", Node.numeric "1")], Node.numeric "5"]) (Node.numeric "5")
    [Node.object [("a", Node.numeric "1")]] [] []
    (GoError.other "Not a valid input: should be a valid JSON")
    (by decide) (by decide) (by decide) (by decide) rfl rfl
    (by
      intro o ho
      simp only [List.mem_singleton] at ho
      subst ho
      exact ⟨_, rfl⟩)
    rfl

/-- C19, on the failing input: the request is authorised, its body
`{"table":"t"}` is valid JSON and gives the table name, so the data path is
`$.data`; the body has no field `data`, the node list is empty, and evaluating
`x[0]` panics with an index out of range. -/
theorem insertData_missing_data_field_panics :
    exIngest.Config.Users.lookup
        (exIngest.getField exLibs "X-API-KEY" "api_key" "api_key" exNoData).1 = some "db"
      ∧ exLibs.jsonValid exNoData.Body = true
      ∧ exIngest.getField exLibs "X-SCRATCHDB-TABLE" "table" "table" exNoData = ("t", "body")
      ∧ (exIngest.InsertData exLibs exNoData).outcome
        = Outcome.panic "index out of range [0] with length 0" := by
  decide

/-! ## Writer keys: claim C11 -/

theorem splitSlash_ne_nil (s : List Char) : splitSlash s ≠ [] := by
  cases s with
  | nil => simp [splitSlash]
  | cons c cs =>
    simp only [splitSlash]
    split
    · simp
    · split <;> simp

theorem splitSlash_append (b : List Char) (a : List Char) :
    splitSlash (a ++ '/' :: b) = splitSlash a ++ splitSlash b := by
  induction a with
  | nil => simp [splitSlash]
  | cons c cs ih =>
    by_cases hc : c = '/'
    · simp [splitSlash, hc, ih]
    · simp only [List.cons_append, splitSlash, hc, if_false, ih]
      cases hs : splitSlash cs with
      | nil => exact absurd hs (splitSlash_ne_nil cs)
      | cons seg segs =>
        show (match splitSlash (cs ++ '/' :: b) with
          | [] => [[c]]
          | seg :: segs => (c :: seg) :: segs) = _
        rw [ih, hs]
        rfl

theorem splitSlash_plain (s : List Char) (h : '/' ∉ s) : splitSlash s = [s] := by
  induction s with
  | nil => rfl
  | cons c cs ih =>
    have hc : c ≠ '/' := fun hc => h (by simp [hc])
    have hcs : '/' ∉ cs := fun hm => h (List.mem_cons_of_mem _ hm)
    simp [splitSlash, hc, ih hcs]

theorem cleanStep_plain (rooted : Bool) (stack : List (List Char)) (s : String)
    (h : plainElement s) : cleanStep rooted stack s.toList = s.toList :: stack := by
  obtain ⟨h1, _, h3, h4⟩ := h
  unfold cleanStep
  rw [if_neg (fun h => h.elim h1 h3), if_neg h4]

theorem intercalate_cons_cons (sep x y : List Char) (rest : List (List Char)) :
    List.intercalate sep (x :: y :: rest) = x ++ sep ++ List.intercalate sep (y :: rest) := by
  simp [List.intercalate, List.intersperse]

theorem intercalate_append_two (a b : List Char) (xs : List (List Char)) :
    List.intercalate ['/'] (xs ++ [a, b])
      = (xs.map (fun seg => seg ++ ['/'])).flatten ++ a ++ '/' :: b := by
  induction xs with
  | nil => simp [List.intercalate, List.intersperse]
  | cons x rest ih =>
    cases rest with
    | nil =>
      simp [List.intercalate, List.intersperse]
    | cons y ys =>
      rw [List.cons_append, List.cons_append, intercalate_cons_cons]
      rw [List.cons_append] at ih
      rw [ih]
      simp [List.append_assoc]

/-- The two texts before and after the first separator determine each other. -/
theorem first_slash_split (a a1 b b1 : List Char) (ha : '/' ∉ a) (ha1 : '/' ∉ a1)
    (h : a ++ '/' :: b = a1 ++ '/' :: b1) : a = a1 ∧ b = b1 := by
  induction a generalizing a1 with
  | nil =>
    cases a1 with
    | nil => simpa using h
    | cons c cs =>
      simp only [List.nil_append, List.cons_append, List.cons.injEq] at h
      exact absurd (by simp [← h.1]) ha1
  | cons c cs ih =>
    cases a1 with
    | nil =>
      simp only [List.nil_append, List.cons_append, List.cons.injEq] at h
      exact absurd (by simp [h.1]) ha
    | cons c1 cs1 =>
      simp only [List.cons_append, List.cons.injEq] at h
      have hcs : '/' ∉ cs := fun hm => ha (List.mem_cons_of_mem _ hm)
      have hcs1 : '/' ∉ cs1 := fun hm => ha1 (List.mem_cons_of_mem _ hm)
      obtain ⟨h1, h2⟩ := ih cs1 hcs hcs1 h.2
      exact ⟨by rw [h.1, h1], h2⟩

theorem string_ne_empty_iff (s : String) : s ≠ "" ↔ s.toList ≠ [] := by
  constructor
  · intro h hl
    exact h (String.ext hl)
  · intro h hs
    exact h (by rw [hs]; rfl)

/-- Cleaning two plain elements joined by a separator changes nothing. -/
theorem clean_two_plain (k t : String) (hk : plainElement k) (ht : plainElement t) :
    filepath.Clean (k.toList ++ '/' :: t.toList) = k.toList ++ '/' :: t.toList := by
  have hsplit : splitSlash (k.toList ++ '/' :: t.toList) = [k.toList, t.toList] := by
    rw [splitSlash_append, splitSlash_plain _ hk.2.1, splitSlash_plain _ ht.2.1]
    rfl
  have hhead : (k.toList ++ '/' :: t.toList).head? ≠ some '/' := by
    obtain ⟨hne, hno, _, _⟩ := hk
    cases hkl : k.toList with
    | nil => exact absurd hkl hne
    | cons c cs =>
      rw [hkl] at hno
      intro h
      simp only [List.cons_append, List.head?_cons, Option.some.injEq] at h
      exact hno (by simp [h])
  have hne : k.toList ++ '/' :: t.toList ≠ [] := by simp
  unfold filepath.Clean
  rw [if_neg hne]
  simp only [hsplit, List.foldl_cons, List.foldl_nil, hhead, decide_False,
    cleanStep_plain _ _ k hk, cleanStep_plain _ _ t ht, List.reverse_cons, List.reverse_nil,
    List.nil_append, List.singleton_append]
  simp [List.intercalate, List.intersperse]

/-- Cleaning a non-empty directory followed by two plain elements gives the
cleaned directory, a separator and the two elements as they are. -/
theorem clean_dir_two_plain (d : List Char) (hd : d ≠ []) (k t : String)
    (hk : plainElement k) (ht : plainElement t) :
    filepath.Clean (d ++ '/' :: (k.toList ++ '/' :: t.toList))
      = (if d.head? = some '/' then ['/'] else [])
        ++ ((((splitSlash d).foldl (cleanStep (decide (d.head? = some '/'))) []).reverse.map
            (fun seg => seg ++ ['/'])).flatten)
        ++ k.toList ++ '/' :: t.toList := by
  have hsplit : splitSlash (d ++ '/' :: (k.toList ++ '/' :: t.toList))
      = splitSlash d ++ [k.toList, t.toList] := by
    rw [splitSlash_append, splitSlash_append, splitSlash_plain _ hk.2.1,
      splitSlash_plain _ ht.2.1]
    rfl
  have hhead : (d ++ '/' :: (k.toList ++ '/' :: t.toList)).head? = d.head? := by
    cases d with
    | nil => exact absurd rfl hd
    | cons c cs => rfl
  have hne : d ++ '/' :: (k.toList ++ '/' :: t.toList) ≠ [] := by simp
  have hbody : ∀ xs : List (List Char),
      List.intercalate ['/'] (xs ++ [k.toList, t.toList]) ≠ [] := by
    intro xs
    rw [intercalate_append_two]
    simp
  unfold filepath.Clean
  rw [if_neg hne]
  simp only [hsplit, hhead, List.foldl_append, List.foldl_cons, List.foldl_nil,
    cleanStep_plain _ _ k hk, cleanStep_plain _ _ t ht, List.reverse_cons, List.append_assoc,
    List.singleton_append]
  by_cases hr : d.head? = some '/'
  · simp only [hr, decide_True, if_true, intercalate_append_two]
    simp [List.append_assoc]
  · simp only [hr, decide_False, if_false, Bool.false_eq_true, if_neg (hbody _),
      intercalate_append_two]
    simp [List.append_assoc]

/-- The writer key of two plain elements: a text that depends on the directory
only, then the two elements with a separator between them. -/
theorem join_plain (dir k t : String) (hk : plainElement k) (ht : plainElement t) :
    filepath.Join [dir, k, t] = String.mk (joinHead dir ++ k.toList ++ '/' :: t.toList) := by
  have hkne : k ≠ "" := (string_ne_empty_iff k).mpr hk.1
  by_cases hd : dir = ""
  · subst hd
    have h2 : List.intercalate ['/'] ([k, t].map String.toList)
        = k.toList ++ '/' :: t.toList := by
      simp [List.intercalate, List.intersperse]
    simp only [filepath.Join, if_true, if_neg hkne, h2, clean_two_plain k t hk ht]
    simp [joinHead]
  · have hdl : dir.toList ≠ [] := (string_ne_empty_iff dir).mp hd
    have h3 : List.intercalate ['/'] ([dir, k, t].map String.toList)
        = dir.toList ++ '/' :: (k.toList ++ '/' :: t.toList) := by
      simp [List.intercalate, List.intersperse]
    simp only [filepath.Join, if_neg hd, h3, clean_dir_two_plain dir.toList hdl k t hk ht]
    simp [joinHead, hd, List.append_assoc]

/-- On plain elements the key determines the pair of API key and table name. -/
theorem join_plain_injective (dir k t k1 t1 : String) (hk : plainElement k)
    (ht : plainElement t) (hk1 : plainElement k1) (ht1 : plainElement t1)
    (h : filepath.Join [dir, k, t] = filepath.Join [dir, k1, t1]) : k = k1 ∧ t = t1 := by
  rw [join_plain dir k t hk ht, join_plain dir k1 t1 hk1 ht1] at h
  have hl : joinHead dir ++ k.toList ++ '/' :: t.toList
      = joinHead dir ++ k1.toList ++ '/' :: t1.toList := congrArg String.data h
  rw [List.append_assoc, List.append_assoc] at hl
  have h2 := List.append_cancel_left hl
  obtain ⟨e1, e2⟩ := first_slash_split _ _ _ _ hk.2.1 hk1.2.1 h2
  exact ⟨String.ext e1, String.ext e2⟩

theorem lookup_mapSet_self {W : Type} (m : List (String × W)) (k : String) (v : W) :
    (mapSet m k v).lookup k = some v := by
  induction m with
  | nil => simp [mapSet, List.lookup]
  | cons p rest ih =>
    obtain ⟨k1, v1⟩ := p
    by_cases h : k1 = k
    · simp [mapSet, h, List.lookup]
    · have hb : (k == k1) = false := by simpa using fun e => h e.symm
      simp [mapSet, h, List.lookup, hb, ih]

theorem lookup_mapSet_ne {W : Type} (m : List (String × W)) (k k0 : String) (v : W)
    (hne : k0 ≠ k) : (mapSet m k v).lookup k0 = m.lookup k0 := by
  induction m with
  | nil =>
    have hb : (k0 == k) = false := by simpa using hne
    simp [mapSet, List.lookup, hb]
  | cons p rest ih =>
    obtain ⟨k1, v1⟩ := p
    by_cases h : k1 = k
    · subst h
      have hb : (k0 == k1) = false := by simpa using hne
      simp [mapSet, List.lookup, hb]
    · by_cases h0 : k0 = k1
      · subst h0
        simp [mapSet, h, List.lookup]
      · have hb : (k0 == k1) = false := by simpa using h0
        simp [mapSet, h, List.lookup, hb, ih]

theorem keys_mapSet_of_lookup {W : Type} (m : List (String × W)) (k : String) (v : W)
    (h : m.lookup k ≠ none) : (mapSet m k v).map Prod.fst = m.map Prod.fst := by
  induction m with
  | nil => exact absurd rfl h
  | cons p rest ih =>
    obtain ⟨k1, v1⟩ := p
    by_cases h1 : k1 = k
    · simp [mapSet, h1]
    · have hb : (k == k1) = false := by simpa using fun e => h1 e.symm
      have hrest : rest.lookup k ≠ none := by simpa [List.lookup, hb] using h
      simp [mapSet, h1, ih hrest]

/-- The writers map after a request that reaches the writer lookup: the map
with the writer of the request created if it was missing, and the state of
that writer possibly replaced. -/
theorem insertData_writers {W : Type} (L : Libs W) (i : FileIngest W) (c : Ctx)
    (h : reachesWriter L i c) :
    ∃ ws, (i.InsertData L c).ingest = { i with writers := ws }
      ∧ ((ws = i.writers ∧ i.writers.lookup (writerKey L i c) ≠ none)
        ∨ (∃ w, ws = mapSet i.writers (writerKey L i c) w)
        ∨ (∃ w0 w, ws = mapSet (mapSet i.writers (writerKey L i c) w0) (writerKey L i c) w)) := by
  obtain ⟨hkey, hvalid, hname, root, x, hroot, hpath⟩ := h
  obtain ⟨db, hdb⟩ := Option.ne_none_iff_exists'.mp hkey
  rcases hfield : i.getField L "X-SCRATCHDB-TABLE" "table" "table" c with ⟨table, location⟩
  rw [hfield] at hname hpath
  simp only at hname hpath
  simp only [writerKey, hfield]
  simp only [FileIngest.InsertData, hdb, hvalid, hfield, hname, hroot, hpath]
  simp only [Bool.not_true, Bool.false_eq_true, if_false]
  cases hl : List.lookup (L.Join [i.Config.DataDir,
      (i.getField L "X-API-KEY" "api_key" "api_key" c).1, table]) i.writers with
  | none =>
    simp only
    cases x with
    | nil => exact ⟨_, rfl, Or.inr (Or.inl ⟨_, rfl⟩)⟩
    | cons x0 more =>
      simp only
      repeat' split
      all_goals first
        | exact ⟨_, rfl, Or.inr (Or.inl ⟨_, rfl⟩)⟩
        | exact ⟨_, rfl, Or.inr (Or.inr ⟨_, _, rfl⟩)⟩
  | some writer =>
    simp only
    cases x with
    | nil => exact ⟨_, rfl, Or.inl ⟨rfl, by simp⟩⟩
    | cons x0 more =>
      simp only
      repeat' split
      all_goals first
        | exact ⟨_, rfl, Or.inl ⟨rfl, by simp⟩⟩
        | exact ⟨_, rfl, Or.inr (Or.inl ⟨_, rfl⟩)⟩

/-- C11, refuted as stated: the requests for the tables `t` and `t/` of the API
key `k` have different pairs of API key and table name and the same writer key
`data/k/t`; both rows end up in the one writer created by the first request. -/
theorem writer_key_shared_by_two_tables :
    ((exIngest.getField exLibs "X-API-KEY" "api_key" "api_key" (exInsert exObjectBody)).1,
        (exIngest.getField exLibs "X-SCRATCHDB-TABLE" "table" "table"
          (exInsert exObjectBody)).1) = ("k", "t")
      ∧ ((exIngest.getField exLibs "X-API-KEY" "api_key" "api_key" exInsertSlash).1,
        (exIngest.getField exLibs "X-SCRATCHDB-TABLE" "table" "table" exInsertSlash).1)
          = ("k", "t/")
      ∧ writerKey exLibs exIngest (exInsert exObjectBody) = "data/k/t"
      ∧ writerKey exLibs exIngest exInsertSlash = "data/k/t"
      ∧ ((exIngest.InsertData exLibs (exInsert exObjectBody)).ingest.InsertData exLibs
          exInsertSlash).ingest.writers
        = [("data/k/t", ["\x7b\"a\":1\x7d", "\x7b\"a\":1\x7d"])] := by
  decide

/-- C11 as amended: the writers are kept under the key
`filepath.Join(DataDir, api_key, table_name)`. A request that passes the checks
leaves a writer under its key, and a later request with the same pair of API key
and table name finds it and creates none, the keys of the writers map stay as
they are. Two pairs of plain path elements (not empty, without a separator,
neither `.` nor `..`) that differ have different keys. -/
theorem insertData_writer_per_pair {W : Type} (L : Libs W) (i : FileIngest W) (c1 c2 : Ctx)
    (h1 : reachesWriter L i c1) (h2 : reachesWriter L i c2)
    (hkey : (i.getField L "X-API-KEY" "api_key" "api_key" c1).1
      = (i.getField L "X-API-KEY" "api_key" "api_key" c2).1)
    (htable : (i.getField L "X-SCRATCHDB-TABLE" "table" "table" c1).1
      = (i.getField L "X-SCRATCHDB-TABLE" "table" "table" c2).1) :
    (i.InsertData L c1).ingest.writers.lookup (writerKey L i c1) ≠ none
      ∧ ((i.InsertData L c1).ingest.InsertData L c2).ingest.writers.map Prod.fst
        = (i.InsertData L c1).ingest.writers.map Prod.fst
      ∧ (∀ dir k t k1 t1 : String, plainElement k → plainElement t → plainElement k1 →
        plainElement t1 → filepath.Join [dir, k, t] = filepath.Join [dir, k1, t1] →
        k = k1 ∧ t = t1) := by
  have hsame : writerKey L i c1 = writerKey L i c2 := by
    simp only [writerKey, hkey, htable]
  obtain ⟨ws, hws, hcases⟩ := insertData_writers L i c1 h1
  have hfound : ws.lookup (writerKey L i c1) ≠ none := by
    rcases hcases with ⟨rfl, hl⟩ | ⟨w, rfl⟩ | ⟨w0, w, rfl⟩
    · exact hl
    · rw [lookup_mapSet_self]; simp
    · rw [lookup_mapSet_self]; simp
  refine ⟨by rw [hws]; exact hfound, ?_, ?_⟩
  · rw [hws]
    have h2a : reachesWriter L { i with writers := ws } c2 := h2
    obtain ⟨ws2, hws2, hcases2⟩ := insertData_writers L { i with writers := ws } c2 h2a
    have hk2 : writerKey L { i with writers := ws } c2 = writerKey L i c1 := hsame.symm
    rw [hws2]
    rw [hk2] at hcases2
    rcases hcases2 with ⟨rfl, _⟩ | ⟨w, rfl⟩ | ⟨w0, w, rfl⟩
    · rfl
    · exact keys_mapSet_of_lookup ws _ w hfound
    · rw [keys_mapSet_of_lookup _ _ w (by rw [lookup_mapSet_self]; simp)]
      exact keys_mapSet_of_lookup ws _ w0 hfound
  · intro dir k t k1 t1 hk ht hk1 ht1 hjoin
    exact join_plain_injective dir k t k1 t1 hk ht hk1 ht1 hjoin

/-- Witness of C11 as amended: two requests for the table `t` of the key `k`. -/
theorem insertData_writer_per_pair_witness :
    (exIngest.InsertData exLibs (exInsert exObjectBody)).ingest.writers.lookup
        (writerKey exLibs exIngest (exInsert exObjectBody)) ≠ none
      ∧ ((exIngest.InsertData exLibs (exInsert exObjectBody)).ingest.InsertData exLibs
          (exInsert exArrayBody)).ingest.writers.map Prod.fst
        = (exIngest.InsertData exLibs (exInsert exObjectBody)).ingest.writers.map Prod.fst :=
  have h := insertData_writer_per_pair exLibs exIngest (exInsert exObjectBody)
    (exInsert exArrayBody)
    ⟨by decide, by decide, by decide, _, _, rfl, rfl⟩
    ⟨by decide, by decide, by decide, _, _, rfl, rfl⟩ (by decide) (by decide)
  ⟨h.1, h.2.1⟩

/-! ## The data sink: claims C12 and C20 -/

/-- C12: `WriteData` uploads the data under the key first. When the upload
fails it returns that error and nothing is put on the queue. When it succeeds
exactly one message of type `InsertData` is put on the queue, carrying the same
database id, the same table and the key of the upload, and the error of
`Enqueue` is returned. So `nil` is returned exactly when both calls succeed. -/
theorem writeData_upload_then_enqueue {S G : Type} (m : DataSink S G) (storage : S) (snow : G)
    (databaseID : Int) (table : String) (data : Bytes) :
    (∀ e, (m.Upload storage (blobKey databaseID table (m.Generate snow).1) data).2 = some e →
        (m.WriteData storage snow databaseID table data).err = some e
          ∧ (m.WriteData storage snow databaseID table data).calls
            = [StorageCall.upload (blobKey databaseID table (m.Generate snow).1) data])
      ∧ ((m.Upload storage (blobKey databaseID table (m.Generate snow).1) data).2 = none →
        (m.WriteData storage snow databaseID table data).calls
            = [StorageCall.upload (blobKey databaseID table (m.Generate snow).1) data,
                StorageCall.enqueue models.InsertData
                  ⟨databaseID, table, blobKey databaseID table (m.Generate snow).1⟩]
          ∧ (m.WriteData storage snow databaseID table data).err
            = (m.Enqueue
                (m.Upload storage (blobKey databaseID table (m.Generate snow).1) data).1
                models.InsertData
                ⟨databaseID, table, blobKey databaseID table (m.Generate snow).1⟩).2)
      ∧ ((m.WriteData storage snow databaseID table data).err = none ↔
        (m.Upload storage (blobKey databaseID table (m.Generate snow).1) data).2 = none
          ∧ (m.Enqueue
              (m.Upload storage (blobKey databaseID table (m.Generate snow).1) data).1
              models.InsertData
              ⟨databaseID, table, blobKey databaseID table (m.Generate snow).1⟩).2 = none) := by
  rcases hg : m.Generate snow with ⟨fileId, snow1⟩
  simp only [DataSink.WriteData, hg]
  rw [show toString databaseID ++ "/" ++ table ++ "/" ++ toString fileId ++ ".ndjson"
    = blobKey databaseID table fileId from rfl]
  rcases hu : m.Upload storage (blobKey databaseID table fileId) data with ⟨storage1, _ | ue⟩
  · rcases hq : m.Enqueue storage1 models.InsertData
        ⟨databaseID, table, blobKey databaseID table fileId⟩ with ⟨storage2, _ | qe⟩
    · simp [hq]
    · simp [hq]
  · simp

/-- Witness of C12: the upload of `x` for database 7 and table `t` with file id
1 succeeds and one message with the key `7/t/1.ndjson` is put on the queue. -/
theorem writeData_upload_then_enqueue_witness :
    ((exSink "").WriteData ([], []) 1 7 "t" ['x']).calls
        = [StorageCall.upload "7/t/1.ndjson" ['x'],
            StorageCall.enqueue models.InsertData ⟨7, "t", "7/t/1.ndjson"⟩]
      ∧ ((exSink "").WriteData ([], []) 1 7 "t" ['x']).err
        = ((exSink "").Enqueue (["7/t/1.ndjson"], []) models.InsertData
            ⟨7, "t", "7/t/1.ndjson"⟩).2 :=
  (writeData_upload_then_enqueue (exSink "") ([], []) 1 7 "t" ['x']).2.1 (by decide)

theorem digitChar_value (d : Nat) (h : d < 10) :
    (Nat.digitChar d).toNat - 48 = d ∧ Nat.digitChar d ≠ '/' ∧ Nat.digitChar d ≠ '-' := by
  interval_cases d <;> decide

theorem toDigitsCore_value (fuel : Nat) :
    ∀ (n : Nat) (ds : List Char), n < fuel →
      (Nat.toDigitsCore 10 fuel n ds).foldl (fun acc c => acc * 10 + (c.toNat - 48)) 0
        = ds.foldl (fun acc c => acc * 10 + (c.toNat - 48)) n := by
  induction fuel with
  | zero => intro n ds h; omega
  | succ f ih =>
    intro n ds h
    have hd := (digitChar_value (n % 10) (Nat.mod_lt _ (by decide))).1
    by_cases h0 : n / 10 = 0
    · have hn : n % 10 = n := Nat.mod_eq_of_lt (by omega)
      rw [hn] at hd
      simp only [Nat.toDigitsCore, h0, if_true, List.foldl_cons, hn, hd, Nat.zero_mul,
        Nat.zero_add]
    · have hlt : n / 10 < f := by omega
      simp only [Nat.toDigitsCore, h0, if_false]
      rw [ih (n / 10) _ hlt]
      simp only [List.foldl_cons, hd]
      have : n / 10 * 10 + n % 10 = n := by omega
      rw [this]

theorem toDigitsCore_chars (fuel : Nat) :
    ∀ (n : Nat) (ds : List Char) (c : Char), c ∈ Nat.toDigitsCore 10 fuel n ds →
      c ∈ ds ∨ (c ≠ '/' ∧ c ≠ '-') := by
  induction fuel with
  | zero => intro n ds c h; exact Or.inl (by simpa [Nat.toDigitsCore] using h)
  | succ f ih =>
    intro n ds c h
    have hd := (digitChar_value (n % 10) (Nat.mod_lt _ (by decide))).2
    by_cases h0 : n / 10 = 0
    · simp only [Nat.toDigitsCore, h0, if_true, List.mem_cons] at h
      rcases h with rfl | h
      · exact Or.inr hd
      · exact Or.inl h
    · simp only [Nat.toDigitsCore, h0, if_false] at h
      rcases ih _ _ c h with h1 | h1
      · rcases List.mem_cons.mp h1 with rfl | h2
        · exact Or.inr hd
        · exact Or.inl h2
      · exact Or.inr h1

theorem toDigits_value (n : Nat) : decimalValue (Nat.toDigits 10 n) = n := by
  unfold decimalValue Nat.toDigits
  rw [toDigitsCore_value (n + 1) n [] (by omega)]
  rfl

theorem toDigits_chars (n : Nat) (c : Char) (h : c ∈ Nat.toDigits 10 n) :
    c ≠ '/' ∧ c ≠ '-' := by
  rcases toDigitsCore_chars (n + 1) n [] c h with h1 | h1
  · exact absurd h1 (by simp)
  · exact h1

theorem toDigits_injective (n n1 : Nat) (h : Nat.toDigits 10 n = Nat.toDigits 10 n1) :
    n = n1 := by
  have := congrArg decimalValue h
  rwa [toDigits_value, toDigits_value] at this

/-- The characters `%d` prints for an integer. -/
theorem int_toString_data (z : Int) :
    (toString z).data = match z with
      | Int.ofNat m => Nat.toDigits 10 m
      | Int.negSucc m => '-' :: Nat.toDigits 10 (m + 1) := by
  cases z with
  | ofNat m => rfl
  | negSucc m => rfl

theorem int_toString_no_slash (z : Int) : '/' ∉ (toString z).data := by
  rw [int_toString_data]
  cases z with
  | ofNat m => exact fun h => (toDigits_chars m _ h).1 rfl
  | negSucc m =>
    intro h
    rcases List.mem_cons.mp h with h1 | h1
    · exact absurd h1 (by decide)
    · exact (toDigits_chars _ _ h1).1 rfl

theorem int_toString_injective (z z1 : Int) (h : (toString z).data = (toString z1).data) :
    z = z1 := by
  rw [int_toString_data, int_toString_data] at h
  cases z with
  | ofNat m =>
    cases z1 with
    | ofNat m1 => rw [toDigits_injective m m1 h]
    | negSucc m1 =>
      have hmem : '-' ∈ Nat.toDigits 10 m := by
        simp only at h
        rw [h]; simp
      exact absurd rfl (toDigits_chars m _ hmem).2
  | negSucc m =>
    cases z1 with
    | ofNat m1 =>
      have hmem : '-' ∈ Nat.toDigits 10 m1 := by
        simp only at h
        rw [← h]; simp
      exact absurd rfl (toDigits_chars m1 _ hmem).2
    | negSucc m1 =>
      simp only [List.cons.injEq, true_and] at h
      have := toDigits_injective _ _ h
      have hm : m = m1 := by omega
      rw [hm]

theorem blobKey_data (databaseID : Int) (table : String) (fileId : Int) :
    (blobKey databaseID table fileId).data
      = (toString databaseID).data
        ++ '/' :: (table.data ++ '/' :: ((toString fileId).data ++ ".ndjson".data)) := by
  simp [blobKey, String.data_append, List.append_assoc]

/-- The two texts before and after the last separator determine each other. -/
theorem last_slash_split (a a1 b b1 : List Char) (hb : '/' ∉ b) (hb1 : '/' ∉ b1)
    (h : a ++ '/' :: b = a1 ++ '/' :: b1) : a = a1 ∧ b = b1 := by
  have hrev : b.reverse ++ '/' :: a.reverse = b1.reverse ++ '/' :: a1.reverse := by
    have := congrArg List.reverse h
    simpa [List.reverse_append, List.append_assoc] using this
  obtain ⟨e1, e2⟩ := first_slash_split _ _ _ _ (by simpa using hb) (by simpa using hb1) hrev
  exact ⟨List.reverse_injective e2, List.reverse_injective e1⟩

/-- C20: the blob key `<databaseID>/<table>/<fileId>.ndjson`, with both numbers
printed in decimal, determines the database id, the table and the file id,
whatever characters the table name holds: equal keys have equal triples. -/
theorem blobKey_injective (db db1 : Int) (table table1 : String) (id id1 : Int)
    (h : blobKey db table id = blobKey db1 table1 id1) :
    db = db1 ∧ table = table1 ∧ id = id1 := by
  have hd := congrArg String.data h
  rw [blobKey_data, blobKey_data] at hd
  have hS : '/' ∉ ".ndjson".data := by decide
  generalize ".ndjson".data = suffix at hd hS
  obtain ⟨e1, e2⟩ := first_slash_split _ _ _ _ (int_toString_no_slash db)
    (int_toString_no_slash db1) hd
  have hno : ∀ z : Int, '/' ∉ (toString z).data ++ suffix := by
    intro z hm
    rcases List.mem_append.mp hm with h1 | h1
    · exact int_toString_no_slash z h1
    · exact hS h1
  obtain ⟨e3, e4⟩ := last_slash_split _ _ _ _ (hno id) (hno id1) e2
  have e5 := List.append_cancel_right e4
  exact ⟨int_toString_injective _ _ e1, String.ext e3, int_toString_injective _ _ e5⟩

/-- Witness of C20: a table name with separators and digits. -/
theorem blobKey_injective_witness :
    blobKey 7 "a/1/b" 12 = blobKey 7 "a/1/b" 12
      ∧ ((7 : Int) = 7 ∧ "a/1/b" = "a/1/b" ∧ (12 : Int) = 12) :=
  ⟨rfl, blobKey_injective 7 7 "a/1/b" "a/1/b" 12 12 rfl⟩

/-! ## Health check, BigQuery and the pipe: claims C13, C14 and C16 -/

/-- C13, refuted as stated: there is no marker file and the free space, 100
bytes, equals the floor `FreeSpaceRequiredBytes`; the answer is 502, not `ok`. -/
theorem healthCheck_free_space_at_floor :
    IsNotExist ((exDisk 100).Stat exIngest.Config.HealthCheckPath) = true
      ∧ (exDisk 100).FreeDiskSpace exIngest.Config.DataDir
        = uint64 exIngest.Config.FreeSpaceRequiredBytes
      ∧ exIngest.HealthCheck (exDisk 100) = ([], Outcome.fiberError 502 "Bad Gateway") := by
  decide

/-- C13 as amended: `HealthCheck` answers `ok` exactly when `os.Stat` reports
that the marker file does not exist and the free space is strictly above the
floor `FreeSpaceRequiredBytes` taken as `uint64`; in every other case, free
space equal to the floor included, it answers 502. -/
theorem healthCheck_ok_iff {W : Type} (d : Disk) (i : FileIngest W) :
    (i.HealthCheck d = ("ok".toList, Outcome.nil) ↔
        IsNotExist (d.Stat i.Config.HealthCheckPath) = true
          ∧ uint64 i.Config.FreeSpaceRequiredBytes < d.FreeDiskSpace i.Config.DataDir)
      ∧ (¬ (IsNotExist (d.Stat i.Config.HealthCheckPath) = true
          ∧ uint64 i.Config.FreeSpaceRequiredBytes < d.FreeDiskSpace i.Config.DataDir) →
        i.HealthCheck d = ([], Outcome.fiberError 502 "Bad Gateway")) := by
  by_cases hs : IsNotExist (d.Stat i.Config.HealthCheckPath) = true
  · by_cases hf : d.FreeDiskSpace i.Config.DataDir ≤ uint64 i.Config.FreeSpaceRequiredBytes
    · have hlt : ¬ uint64 i.Config.FreeSpaceRequiredBytes < d.FreeDiskSpace i.Config.DataDir :=
        Nat.not_lt.mpr hf
      simp [FileIngest.HealthCheck, hs, hf, hlt, statusMessage]
    · have hlt : uint64 i.Config.FreeSpaceRequiredBytes < d.FreeDiskSpace i.Config.DataDir :=
        Nat.lt_of_not_le hf
      simp [FileIngest.HealthCheck, hs, hf, hlt]
  · simp [FileIngest.HealthCheck, hs, statusMessage]

/-- Witness of C13 as amended: one free byte more than the floor is healthy. -/
theorem healthCheck_ok_iff_witness :
    exIngest.HealthCheck (exDisk 101) = ("ok".toList, Outcome.nil) :=
  (healthCheck_ok_iff (exDisk 101) exIngest).1.mpr ⟨by decide, by decide⟩

/-- C14, on the failing input: `BigQueryConnection.QueryJSON` leaves the writer
as it was and behaves the same for every query it is given, it always runs
its own fixed SQL text; for the query `select 1` in a project where every call
succeeds it returns `nil` with nothing written, not even `[]`. -/
theorem bigQuery_queryJSON_writes_nothing :
    (∀ (lib : BigQueryLib) (s : BigQueryConnection) (query : String) (w : Bytes),
        (s.QueryJSON lib query bufferWrite w).1 = w)
      ∧ (∀ (lib : BigQueryLib) (s : BigQueryConnection) (q1 q2 : String) (w : Bytes),
        s.QueryJSON lib q1 bufferWrite w = s.QueryJSON lib q2 bufferWrite w)
      ∧ (⟨"\x7b\x7d"⟩ : BigQueryConnection).QueryJSON exBigQuery "select 1" bufferWrite []
        = ([], Outcome.nil) := by
  refine ⟨?_, ?_, by decide⟩
  · intro lib s query w
    unfold BigQueryConnection.QueryJSON
    repeat' split
    all_goals rfl
  · intro lib s q1 q2 w
    rfl

theorem not_mem_removeAll_self (dir : String) (fs : FileSystem) : dir ∉ RemoveAll dir fs := by
  simp [RemoveAll]

theorem not_below_of_mem_removeAll (dir p : String) (fs : FileSystem)
    (h : p ∈ RemoveAll dir fs) : below dir p = false := by
  simp only [RemoveAll, List.mem_filter, decide_eq_true_eq] at h
  simpa using h.2.2

theorem not_mem_removeAll_remove (dir path : String) (fs : FileSystem) :
    path ∉ RemoveAll dir (Remove path fs) := by
  simp [RemoveAll, Remove]

/-- C16: in every execution of `QueryJSONPipe` in which the temporary directory
was created, at the return the directory is gone and nothing is left below it,
and when the pipe was created the pipe is gone too: after a failed `Mkfifo`,
and after a first value on `done` that is an error or `nil`. -/
theorem queryJSONPipe_cleans_up (run : PipeRun) (fs : FileSystem) (dir : String)
    (hdir : run.mkdirTemp = .ok dir) :
    dir ∉ (DuckDBServer.QueryJSONPipe run fs).1
      ∧ (∀ p ∈ (DuckDBServer.QueryJSONPipe run fs).1, below dir p = false)
      ∧ (run.mkfifo = none →
        filepath.Join [dir, "p.pipe"] ∉ (DuckDBServer.QueryJSONPipe run fs).1)
      ∧ (DuckDBServer.QueryJSONPipe run fs).2
        = (match run.mkfifo with
          | some err => some err
          | none => run.signal) := by
  cases hf : run.mkfifo with
  | some err =>
    simp only [DuckDBServer.QueryJSONPipe, hdir, hf]
    exact ⟨not_mem_removeAll_self _ _, fun p hp => not_below_of_mem_removeAll _ _ _ hp,
      fun h => absurd h (by simp), trivial⟩
  | none =>
    cases hs : run.signal with
    | some err =>
      simp only [DuckDBServer.QueryJSONPipe, hdir, hf, hs]
      exact ⟨not_mem_removeAll_self _ _, fun p hp => not_below_of_mem_removeAll _ _ _ hp,
        fun _ => not_mem_removeAll_remove _ _ _, trivial⟩
    | none =>
      simp only [DuckDBServer.QueryJSONPipe, hdir, hf, hs]
      exact ⟨not_mem_removeAll_self _ _, fun p hp => not_below_of_mem_removeAll _ _ _ hp,
        fun _ => not_mem_removeAll_remove _ _ _, trivial⟩

/-- Witness of C16: the query fails at once; the file system is as before the
call and the error of the query is returned. -/
theorem queryJSONPipe_cleans_up_witness :
    DuckDBServer.QueryJSONPipe exPipeRun ["/tmp"]
        = (["/tmp"], some (GoError.other "Parser Error: syntax error"))
      ∧ "/tmp/scratchdata_duckdb1" ∉ (DuckDBServer.QueryJSONPipe exPipeRun ["/tmp"]).1 :=
  ⟨by decide, (queryJSONPipe_cleans_up exPipeRun ["/tmp"] "/tmp/scratchdata_duckdb1" rfl).1⟩

end ScratchDB
